import Mathlib

/-!
Verification of the website-crawler core (crawl frontier, URL normalization,
duplicate-content analysis, page power) against its natural-language
specification.  The Python sources are shallowly embedded: pure functions
become Lean functions on `String` / `List Char` / `ℚ`; the handful of
external effects (MD5, SHA-256, Python's `hash`, the seeded random
permutations, BeautifulSoup tag extraction, difflib/textdistance ratios)
are abstracted as parameters of a `HashModel`, since every claim under
study depends only on their functional behaviour (equal inputs give equal
outputs), plus injectivity of SHA-256 where duplicate grouping needs it.
Python `float` arithmetic is modelled by exact rationals, and `round(x, n)`
by round-half-up on rationals (Python rounds half to even; no claim here
exercises a tie).  Unicode-sensitive Python string operations (`lower`,
`\w`, `\s`) are modelled with their ASCII semantics.
-/

set_option linter.unusedVariables false
set_option maxRecDepth 10000

namespace WebCrawler

/-! ### Python string primitives (ASCII semantics) -/

/-- Python `str.lower` on a single character, ASCII range (model of `str.lower`). -/
def pyLowerChar (c : Char) : Char :=
  if 65 ≤ c.toNat ∧ c.toNat ≤ 90 then Char.ofNat (c.toNat + 32) else c

/-- Python `str.lower` on a character list. -/
def pyLowerL (l : List Char) : List Char := l.map pyLowerChar

/-- Python `str.lower` on a string. -/
def pyLower (s : String) : String := ⟨pyLowerL s.data⟩

/-- Python whitespace class (`\s`, `str.split()`, `str.strip()`), ASCII part. -/
def isPySpace (c : Char) : Bool :=
  c = ' ' ∨ c = '\t' ∨ c = '\n' ∨ c = '\x0d' ∨ c = '\x0b' ∨ c = '\x0c'

/-- Python `str.strip()` (strip whitespace from both ends). -/
def pyStripL (l : List Char) : List Char :=
  ((l.dropWhile isPySpace).reverse.dropWhile isPySpace).reverse

/-- Python `s.rstrip("/")`: remove ALL trailing `/` characters. -/
def rstripSlashes (l : List Char) : List Char :=
  (l.reverse.dropWhile (· = '/')).reverse

/-- Python `suffix in s`-style `s.endswith(t)`. -/
def pyEndsWith (s t : String) : Bool := t.data.isSuffixOf s.data

/-- Python `s.startswith(t)`. -/
def pyStartsWith (s t : String) : Bool := t.data.isPrefixOf s.data

/-- `re.sub(r"\s+", " ", s)`: collapse maximal whitespace runs to one space
(the flag records whether we are inside a whitespace run). -/
def collapseWsAux : Bool → List Char → List Char
  | _, [] => []
  | inRun, c :: rest =>
    if isPySpace c then
      if inRun then collapseWsAux true rest else ' ' :: collapseWsAux true rest
    else c :: collapseWsAux false rest

/-- `re.sub(r"\s+", " ", s)` on a character list. -/
def collapseWsL (l : List Char) : List Char := collapseWsAux false l

/-- Python `str.split()` (no separator): split on whitespace runs, no empties. -/
def splitWsAux : List Char → List Char → List (List Char)
  | [], acc => if acc = [] then [] else [acc.reverse]
  | c :: rest, acc =>
    if isPySpace c then
      if acc = [] then splitWsAux rest [] else acc.reverse :: splitWsAux rest []
    else splitWsAux rest (c :: acc)

/-- Python `str.split()` on a string, yielding strings. -/
def splitWs (s : String) : List String := (splitWsAux s.data []).map (⟨·⟩)

/-- Join a list of strings with single spaces (`" ".join(words)`). -/
def joinSpace (ws : List String) : String := String.intercalate " " ws

/-! ### `urllib.parse.urlparse` / `urlunparse` (CPython semantics, `str` input) -/

/-- Result of `urllib.parse.urlparse`. -/
structure UrlParts where
  scheme : String
  netloc : String
  path : String
  params : String
  query : String
  fragment : String
deriving DecidableEq, Repr

/-- Characters CPython's `urlsplit` removes from the URL before parsing. -/
def isUnsafeUrlChar (c : Char) : Bool := c = '\t' ∨ c = '\x0d' ∨ c = '\n'

/-- Characters allowed in a URL scheme (`scheme_chars` in CPython). -/
def isSchemeChar (c : Char) : Bool :=
  c.isAlpha ∨ c.isDigit ∨ c = '+' ∨ c = '-' ∨ c = '.'

/-- CPython `urlsplit` scheme splitting: take `url[:i]` for the first `:` at
`i > 0` when the prefix is alphabetic-led and scheme-charred; the scheme is
lowercased by `urlsplit` itself. -/
def splitScheme (l : List Char) : List Char × List Char :=
  match l.findIdx? (· = ':') with
  | none => ([], l)
  | some i =>
    if 0 < i ∧ (l.take i).all isSchemeChar ∧ (l.headD ' ').isAlpha then
      (pyLowerL (l.take i), l.drop (i + 1))
    else ([], l)

/-- A netloc terminator in CPython `urlsplit` (`'/?#'`). -/
def isNetlocEnd (c : Char) : Bool := c = '/' ∨ c = '?' ∨ c = '#'

/-- CPython `urlsplit` netloc splitting: only when the remainder starts `//`. -/
def splitNetloc : List Char → List Char × List Char
  | '/' :: '/' :: rest =>
    (rest.takeWhile (fun c => ¬ isNetlocEnd c), rest.dropWhile (fun c => ¬ isNetlocEnd c))
  | l => ([], l)

/-- Split at the first occurrence of `c`: `(before, after)`; the whole list and
`[]` when `c` is absent (CPython `url.split(c, 1)` with a found check). -/
def splitOnFirst (c : Char) (l : List Char) : List Char × List Char :=
  (l.takeWhile (· ≠ c), (l.dropWhile (· ≠ c)).tail)

/-- First index of `c` at or after `start` (Python `l.find(c, start)`). -/
def findIdxFrom (c : Char) (start : Nat) (l : List Char) : Option Nat :=
  ((l.drop start).findIdx? (· = c)).map (· + start)

/-- Last index of `c` (Python `l.rfind(c)`), when present. -/
def rfindIdx (c : Char) (l : List Char) : Option Nat :=
  (l.reverse.findIdx? (· = c)).map (fun i => l.length - 1 - i)

/-- CPython `_splitparams`: split `;params` off the last path segment. -/
def splitParams (l : List Char) : List Char × List Char :=
  if '/' ∈ l then
    match findIdxFrom ';' ((rfindIdx '/' l).getD 0) l with
    | some i => (l.take i, l.drop (i + 1))
    | none => (l, [])
  else
    match l.findIdx? (· = ';') with
    | some i => (l.take i, l.drop (i + 1))
    | none => (l, [])

/-- `urllib.parse.urlparse` (CPython 3.11: lstrip C0-control/space, remove
unsafe bytes, then scheme, netloc, fragment, query, and params off the path).
The IPv6 bracketed-host validation and the non-ASCII netloc check — which can
raise and are caught by `_normalize_url`'s bare `except` — are not modelled;
every theorem below concerns bracket-free ASCII URLs. -/
def urlparse (s : String) : UrlParts :=
  let l := (s.data.dropWhile (fun c => c.toNat ≤ 32)).filter (fun c => ¬ isUnsafeUrlChar c)
  let (scheme, r1) := splitScheme l
  let (netloc, r2) := splitNetloc r1
  let (r3, fragment) := splitOnFirst '#' r2
  let (pathq, query) := splitOnFirst '?' r3
  let (path, params) := if ';' ∈ pathq then splitParams pathq else (pathq, [])
  ⟨⟨scheme⟩, ⟨netloc⟩, ⟨path⟩, ⟨params⟩, ⟨query⟩, ⟨fragment⟩⟩

/-- `urllib.parse.uses_netloc` (CPython 3.11). -/
def usesNetloc : List String :=
  ["", "ftp", "http", "gopher", "nntp", "telnet", "imap", "wais", "file", "mms",
   "https", "shttp", "snews", "prospero", "rtsp", "rtsps", "rtspu", "rsync",
   "svn", "svn+ssh", "sftp", "nfs", "git", "git+ssh", "ws", "wss"]

/-- `urllib.parse.urlunparse` (via CPython 3.11's `urlunsplit`). -/
def urlunparse (p : UrlParts) : String :=
  let u0 := if p.params = "" then p.path.data else p.path.data ++ ';' :: p.params.data
  let u1 :=
    if p.netloc ≠ "" ∨ (p.scheme ≠ "" ∧ p.scheme ∈ usesNetloc ∧ u0.take 2 ≠ ['/', '/']) then
      let u0f := if u0 ≠ [] ∧ u0.headD ' ' ≠ '/' then '/' :: u0 else u0
      '/' :: '/' :: p.netloc.data ++ u0f
    else u0
  let u2 := if p.scheme ≠ "" then p.scheme.data ++ ':' :: u1 else u1
  let u3 := if p.query ≠ "" then u2 ++ '?' :: p.query.data else u2
  let u4 := if p.fragment ≠ "" then u3 ++ '#' :: p.fragment.data else u3
  ⟨u4⟩

/-! ### `SiteSpider._normalize_url` (src/crawler/spiders/site_spider.py:534) -/

/-- `IGNORED_EXTENSIONS` from src/crawler/settings.py. -/
def IGNORED_EXTENSIONS : List String :=
  ["jpg", "jpeg", "png", "gif", "bmp", "svg", "ico", "webp",
   "pdf", "doc", "docx", "xls", "xlsx", "ppt", "pptx",
   "zip", "rar", "tar", "gz",
   "mp3", "mp4", "avi", "mov", "wmv", "flv",
   "css", "js", "xml", "json", "rss", "atom"]

/-- `any(path.endswith(f".{ext}") for ext in IGNORED_EXTENSIONS)` on the
lowercased path. -/
def pathEndsWithIgnored (path : String) : Bool :=
  IGNORED_EXTENSIONS.any (fun ext => pyEndsWith (pyLower path) ("." ++ ext))

/-- The body of `_normalize_url` after `urlparse`: scheme check, ignored
extension check, strip all trailing slashes, rebuild without fragment. -/
def normalizeParsed (p : UrlParts) : Option String :=
  if ¬ (p.scheme = "http" ∨ p.scheme = "https") then none
  else if pathEndsWithIgnored p.path then none
  else some (urlunparse
    ⟨pyLower p.scheme, pyLower p.netloc, ⟨rstripSlashes p.path.data⟩,
     p.params, p.query, ""⟩)

/-- `SiteSpider._normalize_url`: `None` for empty input, else normalize the
parsed URL. -/
def normalizeUrl (url : String) : Option String :=
  if url = "" then none else normalizeParsed (urlparse url)

/-- The spec's reading of rule (e) in §4.1: strip EXACTLY ONE trailing `/`
from the path (root path to the empty path).  Modelled from the spec for
comparison with the source's `normalizeParsed`. -/
def normalizeParsedSpecOneSlash (p : UrlParts) : Option String :=
  if ¬ (p.scheme = "http" ∨ p.scheme = "https") then none
  else if pathEndsWithIgnored p.path then none
  else some (urlunparse
    ⟨pyLower p.scheme, pyLower p.netloc,
     ⟨if p.path.data.getLast? = some '/' then p.path.data.dropLast else p.path.data⟩,
     p.params, p.query, ""⟩)

/-- Spec-side normalizer stripping exactly one slash. -/
def normalizeUrlSpecOneSlash (url : String) : Option String :=
  if url = "" then none else normalizeParsedSpecOneSlash (urlparse url)

/-! ### Association-list helpers (Python `dict` / `defaultdict(list)` / `set`) -/

/-- `set.add` with insertion order (Python sets are modelled as ordered,
duplicate-free lists; all uses below are order-insensitive). -/
def insertNew (l : List String) (x : String) : List String :=
  if x ∈ l then l else l ++ [x]

/-- `d.get(k)` on an association list. -/
def assocFind {α : Type} (l : List (String × α)) (k : String) : Option α :=
  (l.find? (·.1 = k)).map (·.2)

/-- `d[k] = v` on an association list (replace in place, else append:
Python dicts preserve insertion order). -/
def assocSet {α : Type} (l : List (String × α)) (k : String) (v : α) : List (String × α) :=
  if (l.find? (·.1 = k)).isSome then l.map (fun p => if p.1 = k then (k, v) else p)
  else l ++ [(k, v)]

/-- `defaultdict(list)`: `d[k].append(v)`. -/
def assocAppend (l : List (String × List String)) (k : String) (v : String) :
    List (String × List String) :=
  if (l.find? (·.1 = k)).isSome then l.map (fun p => if p.1 = k then (p.1, p.2 ++ [v]) else p)
  else l ++ [(k, [v])]

/-- Python `round(q * 100, 2)`-style rounding of a rational to `n` decimal
digits (round half up; Python rounds half to even — no claim exercises a tie). -/
def pyRoundTo (n : Nat) (q : ℚ) : ℚ := ((round (q * 10 ^ n) : ℤ) : ℚ) / 10 ^ n

/-! ### `PagePowerAnalyzer` (src/page_power_analyzer.py) -/

/-- One page as `PagePowerAnalyzer.analyze_site` consumes it: its `url` and
the URL list of its `internal_links`. -/
structure PowerPage where
  url : String
  internalLinks : List String
deriving DecidableEq, Repr

/-- `_build_link_graph`: for each page (skipping empty URLs) the set of its
linked URLs restricted to crawled page URLs (`linked_urls & all_urls`). -/
def buildLinkGraph (pages : List PowerPage) : List (String × List String) :=
  let allUrls := (pages.filter (·.url ≠ "")).map (·.url)
  (pages.filter (·.url ≠ "")).map
    (fun pg => (pg.url, (pg.internalLinks.foldl insertNew []).filter (· ∈ allUrls)))

/-- Standard PageRank damping used by `_calculate_page_powers` (0.85). -/
def dampingFactor : ℚ := 85 / 100

/-- The first URL whose parsed path is `/` or the empty string (the homepage
detection loop in `_calculate_page_powers`). -/
def homepageOf (urls : List String) : Option String :=
  urls.find? (fun u => (urlparse u).path = "/" ∨ (urlparse u).path = "")

/-- Initial powers: everyone 1.0, the homepage boosted to 2.0. -/
def initPower (urls : List String) : List (String × ℚ) :=
  match homepageOf urls with
  | some h => urls.map (fun u => (u, if u = h then (2 : ℚ) else 1))
  | none => urls.map (fun u => (u, (1 : ℚ)))

/-- `power.get(url, d)` as a rational. -/
def powerAt (power : List (String × ℚ)) (k : String) : ℚ :=
  ((power.find? (·.1 = k)).map (·.2)).getD 0

/-- One round of the source's power iteration: base `(1-d)/N` plus, folding
over the link graph, `power[source] * d / (len(links) or 1)` for every source
whose link set contains the page and that has a power entry. -/
def powerStep (graph : List (String × List String)) (urls : List String)
    (power : List (String × ℚ)) : List (String × ℚ) :=
  urls.map (fun url =>
    (url, (1 - dampingFactor) / (urls.length : ℚ) +
      graph.foldl (fun acc sl =>
        if url ∈ sl.2 ∧ (power.find? (·.1 = sl.1)).isSome then
          acc + powerAt power sl.1 * dampingFactor /
            ((if sl.2.length = 0 then 1 else sl.2.length : ℕ) : ℚ)
        else acc) 0))

/-- The spec's wording of the same round (§4.5): each page's new power equals
`(1-d)/N` plus the sum, over every crawled page linking to it, of that
source's power times `d` divided by the source's outbound-link count
(zero-outbound pages contribute nothing).  Modelled from the spec for
comparison with the source's `powerStep`. -/
def powerStepSpec (graph : List (String × List String)) (urls : List String)
    (power : List (String × ℚ)) : List (String × ℚ) :=
  urls.map (fun url =>
    (url, (1 - dampingFactor) / (urls.length : ℚ) +
      ((graph.filter (fun sl => url ∈ sl.2)).map
        (fun sl => powerAt power sl.1 * dampingFactor / (sl.2.length : ℚ))).sum))

/-- Min-max normalization to `[0,100]` with `round(·, 2)`, guarding a zero
range with 1 (the tail of `_calculate_page_powers`). -/
def minMaxNormalize (power : List (String × ℚ)) : List (String × ℚ) :=
  match power.map (·.2) with
  | [] => []
  | v :: vs =>
    let mx := vs.foldl max v
    let mn := vs.foldl min v
    let range := if mn < mx then mx - mn else 1
    power.map (fun p => (p.1, pyRoundTo 2 ((p.2 - mn) / range * 100)))

/-- `PagePowerAnalyzer.analyze_site` / `_calculate_page_powers`: build the
graph, initialize (homepage head start), run exactly 10 rounds, min-max
normalize to 0–100. -/
def calculatePagePowers (pages : List PowerPage) : List (String × ℚ) :=
  if pages = [] then []
  else
    let urls := (pages.filter (·.url ≠ "")).map (·.url)
    if urls = [] then []
    else
      let graph := buildLinkGraph pages
      minMaxNormalize ((powerStep graph urls)^[10] (initPower urls))

/-! ### External effects of the fingerprinting subsystem

MD5, Python's builtin `hash` on int tuples, the `random.seed(42)` permutation
parameters, SHA-256, BeautifulSoup tag/category extraction and the
difflib/textdistance ratios are not reproducible in a shallow embedding; they
are abstracted as a parameter structure.  Every theorem below either holds
for all instantiations or states the hypotheses it needs (e.g. injectivity
of the SHA-256 hex digest, its standard collision-freedom reading). -/

structure HashModel where
  /-- `int(hashlib.md5(shingle.encode()).hexdigest(), 16)`. -/
  md5Int : String → Nat
  /-- Python `hash` of a tuple of signature slots (`hash(band_sig)`). -/
  tupleHash : List Nat → Int
  /-- The 128 seeded `(a, b)` pairs drawn in `MinHashLSH.__init__`. -/
  hashFuncs : List (Nat × Nat)
  /-- `hashlib.sha256(text.encode()).hexdigest()`. -/
  sha256Hex : String → String
  /-- `extract_tags_and_categories(html)`: the `(tags_text, categories_text)` pair. -/
  extractTags : String → String × String
  /-- `extract_visible_text(html)` for the no-text-content branch. -/
  extractVisible : String → String
  /-- `textdistance.ratcliff_obershelp.normalized_similarity`. -/
  ratcliffSim : String → String → ℚ
  /-- `difflib.SequenceMatcher(None, a, b).ratio()`. -/
  seqMatchSim : String → String → ℚ

/-! ### `MinHashLSH` (src/duplicate_content_analyzer.py:73) -/

/-- `_hash_shingle`: `(a * md5(shingle) + b) % 2**31`. -/
def hashShingle (m : HashModel) (sh : String) (ab : Nat × Nat) : Nat :=
  (ab.1 * m.md5Int sh + ab.2) % 2 ^ 31

/-- `compute_minhash`: per hash function the minimum shingle hash, starting
from `2**31 - 1`; all-maximal signature for an empty shingle set. -/
def computeMinhash (m : HashModel) (shingles : List String) : List Nat :=
  if shingles = [] then List.replicate m.hashFuncs.length (2 ^ 31 - 1)
  else m.hashFuncs.map
    (fun ab => (shingles.map (fun sh => hashShingle m sh ab)).foldl min (2 ^ 31 - 1))

/-- LSH buckets, keyed by `(band_id, band_hash)`; each bucket an
insertion-ordered duplicate-free URL list (Python: `band_id` dict of
`defaultdict(set)`). -/
abbrev Buckets := List ((Nat × Int) × List String)

/-- Add a document to one bucket (`lsh_buckets[band_id][band_hash].add`). -/
def bucketAdd (b : Buckets) (k : Nat × Int) (doc : String) : Buckets :=
  if (b.find? (·.1 = k)).isSome then
    b.map (fun e => if e.1 = k then (e.1, insertNew e.2 doc) else e)
  else b ++ [(k, [doc])]

/-- Read one bucket (`lsh_buckets[band_id].get(band_hash, set())`). -/
def bucketGet (b : Buckets) (k : Nat × Int) : List String :=
  ((b.find? (·.1 = k)).map (·.2)).getD []

/-- LSH banding configuration (`num_bands`, `rows_per_band`). -/
structure LshConfig where
  numBands : Nat
  rowsPerBand : Nat
deriving DecidableEq, Repr

/-- The configuration the analyzer constructs: `num_bands=16, rows_per_band=8`. -/
def lshCfg : LshConfig := ⟨16, 8⟩

/-- The band loop of `MinHashLSH.add_document`: for each band id in order,
stop (`break`) at the first band whose end index exceeds the signature
length, else hash the band slice and add the document to its bucket. -/
def addBands (m : HashModel) (rows : Nat) (docId : String) (sig : List Nat) :
    List Nat → Buckets → Buckets
  | [], b => b
  | band :: rest, b =>
    if band * rows + rows ≤ sig.length then
      addBands m rows docId sig rest
        (bucketAdd b (band, m.tupleHash ((sig.drop (band * rows)).take rows)) docId)
    else b

/-- `MinHashLSH.add_document`. -/
def addDocument (m : HashModel) (cfg : LshConfig) (docId : String) (sig : List Nat)
    (b : Buckets) : Buckets :=
  addBands m cfg.rowsPerBand docId sig (List.range cfg.numBands) b

/-- The band loop of `MinHashLSH.find_candidates`: same early `break`,
unioning bucket contents. -/
def collectBands (m : HashModel) (rows : Nat) (sig : List Nat) (b : Buckets) :
    List Nat → List String → List String
  | [], acc => acc
  | band :: rest, acc =>
    if band * rows + rows ≤ sig.length then
      collectBands m rows sig b rest
        ((bucketGet b (band, m.tupleHash ((sig.drop (band * rows)).take rows))).foldl
          insertNew acc)
    else acc

/-- `MinHashLSH.find_candidates`: all co-bucketed documents minus the
document itself. -/
def findCandidates (m : HashModel) (cfg : LshConfig) (docId : String) (sig : List Nat)
    (b : Buckets) : List String :=
  (collectBands m cfg.rowsPerBand sig b (List.range cfg.numBands) []).filter (· ≠ docId)

/-- `MinHashLSH.estimate_jaccard`: 0.0 on length mismatch, else the fraction
of matching slots. -/
def estimateJaccard (sig1 sig2 : List Nat) : ℚ :=
  if sig1.length ≠ sig2.length then 0
  else if 0 < sig1.length then
    (((sig1.zip sig2).countP (fun p => p.1 = p.2) : ℕ) : ℚ) / (sig1.length : ℚ)
  else 0

/-! ### `DuplicateContentAnalyzer` text processing -/

/-- `STOPWORDS` from src/duplicate_content_analyzer.py (as a list; the two
apostrophes are written as `\x27`). -/
def STOPWORDS : List String :=
  ["a", "an", "and", "are", "as", "at", "be", "by", "for", "from",
   "has", "he", "in", "is", "it", "its", "of", "on", "that", "the",
   "to", "was", "will", "with", "the", "this", "but", "they", "have",
   "had", "what", "said", "each", "which", "their", "time", "if",
   "up", "out", "many", "then", "them", "these", "so", "some", "her",
   "would", "make", "like", "into", "him", "has", "two", "more",
   "very", "after", "words", "long", "than", "first", "been", "call",
   "who", "oil", "sit", "now", "find", "down", "day", "did", "get",
   "come", "made", "may", "part", "over", "new", "sound", "take",
   "only", "little", "work", "know", "place", "year", "live", "me",
   "back", "give", "most", "very", "after", "thing", "our", "just",
   "name", "good", "sentence", "man", "think", "say", "great", "where",
   "through", "much", "before", "line", "right", "too", "mean", "old",
   "any", "same", "tell", "boy", "follow", "came", "want", "show",
   "also", "around", "form", "three", "small", "set", "put", "end",
   "does", "another", "well", "large", "must", "big", "even", "such",
   "because", "turn", "here", "why", "ask", "went", "men", "read",
   "need", "land", "different", "home", "us", "move", "try", "kind",
   "hand", "picture", "again", "change", "off", "play", "spell", "air",
   "away", "animal", "house", "point", "page", "letter", "mother",
   "answer", "found", "study", "still", "learn", "should", "america",
   "world", "high", "every", "near", "add", "food", "between", "own",
   "below", "country", "plant", "last", "school", "father", "keep",
   "tree", "never", "start", "city", "earth", "eye", "light", "thought",
   "head", "under", "story", "saw", "left", "don\x27t", "few", "while",
   "along", "might", "close", "something", "seem", "next", "hard",
   "open", "example", "begin", "life", "always", "those", "both",
   "paper", "together", "got", "group", "often", "run", "important",
   "until", "children", "side", "feet", "car", "mile", "night", "walk",
   "white", "sea", "began", "grow", "took", "river", "four", "carry",
   "state", "once", "book", "hear", "stop", "without", "second",
   "later", "miss", "idea", "enough", "eat", "face", "watch", "far",
   "indian", "really", "almost", "let", "above", "girl", "sometimes",
   "mountain", "cut", "young", "talk", "soon", "list", "song", "leave",
   "family", "it\x27s"]

/-- If `l` starts with `[a-z]+;`, the remainder after the `;` (helper for
`re.sub(r"&[a-z]+;", " ", ·)` after a literal `&`). -/
def entityTail (l : List Char) : Option (List Char) :=
  let ls := l.takeWhile (fun c => 'a' ≤ c ∧ c ≤ 'z')
  if ls ≠ [] ∧ (l.drop ls.length).headD ' ' = ';' then some ((l.drop ls.length).tail)
  else none

/-- `re.sub(r"&[a-z]+;", " ", ·)`: left-to-right, non-overlapping; on a
failed match at `&` the scan advances one character (as the regex engine
does, since any shorter letter run is not followed by `;`).  Structurally
recursive on a fuel argument that the wrapper sets to the list length, an
upper bound on the number of steps (`entityTail` always consumes at least
one character), so the `0` case is never reached from `subEntities`. -/
def subEntitiesF : Nat → List Char → List Char
  | 0, l => l
  | _, [] => []
  | fuel + 1, c :: rest =>
    if c = '&' then
      match entityTail rest with
      | some rest2 => ' ' :: subEntitiesF fuel rest2
      | none => '&' :: subEntitiesF fuel rest
    else c :: subEntitiesF fuel rest

/-- `re.sub(r"&[a-z]+;", " ", ·)`. -/
def subEntities (l : List Char) : List Char := subEntitiesF l.length l

/-- If `l` starts with `#\d+;`, the remainder after the `;` (helper for
`re.sub(r"&#\d+;", " ", ·)` after a literal `&`). -/
def numEntityTail (l : List Char) : Option (List Char) :=
  if l.headD ' ' = '#' then
    let rest := l.tail
    let ds := rest.takeWhile Char.isDigit
    if ds ≠ [] ∧ (rest.drop ds.length).headD ' ' = ';' then some ((rest.drop ds.length).tail)
    else none
  else none

/-- `re.sub(r"&#\d+;", " ", ·)`, fuelled like `subEntitiesF`. -/
def subNumEntitiesF : Nat → List Char → List Char
  | 0, l => l
  | _, [] => []
  | fuel + 1, c :: rest =>
    if c = '&' then
      match numEntityTail rest with
      | some rest2 => ' ' :: subNumEntitiesF fuel rest2
      | none => '&' :: subNumEntitiesF fuel rest
    else c :: subNumEntitiesF fuel rest

/-- `re.sub(r"&#\d+;", " ", ·)`. -/
def subNumEntities (l : List Char) : List Char := subNumEntitiesF l.length l

/-- ASCII `\w` or `\s` (the characters `re.sub(r"[^\w\s]", " ", ·)` keeps). -/
def keepWordChar (c : Char) : Bool := c.isAlphanum ∨ c = '_' ∨ isPySpace c

/-- `re.sub(r"[^\w\s]", " ", ·)`. -/
def subNonWord (l : List Char) : List Char :=
  l.map (fun c => if keepWordChar c then c else ' ')

/-- `DuplicateContentAnalyzer.normalize_text`: lowercase, drop HTML
entities, drop non-word characters, optionally remove stopwords and words
of length ≤ 2, compress whitespace, strip. -/
def analyzerNormalizeText (removeStopwords : Bool) (text : String) : String :=
  if text = "" then ""
  else
    let t1 := subNonWord (subNumEntities (subEntities (pyLowerL text.data)))
    let t2 :=
      if removeStopwords then
        (joinSpace (((splitWsAux t1 []).map (fun w => (⟨w⟩ : String))).filter
          (fun w => w ∉ STOPWORDS ∧ 2 < w.length))).data
      else t1
    ⟨pyStripL (collapseWsL t2)⟩

/-- `DuplicateContentAnalyzer.create_shingles`: overlapping word 5-grams as
a set (whole text as a single shingle when shorter than the shingle size). -/
def createShingles (shingleSize : Nat) (text : String) : List String :=
  if text = "" then []
  else
    let words := splitWs text
    if words.length < shingleSize then [text]
    else ((List.range (words.length - shingleSize + 1)).map
      (fun i => joinSpace ((words.drop i).take shingleSize))).dedup

/-- Jaccard similarity `|A ∩ B| / |A ∪ B|` of two duplicate-free lists
(Python set semantics), 0 for two empty sets. -/
def listJaccard (a b : List String) : ℚ :=
  let inter := (a.filter (· ∈ b)).length
  let uni := (a ++ b.filter (· ∉ a)).length
  if uni = 0 then 0 else (inter : ℚ) / (uni : ℚ)

/-! ### `DuplicateContentAnalyzer` state and operations

The pipeline constructs it as `DuplicateContentAnalyzer(min_similarity=0.40,
use_minhash=True)`, so `use_minhash` is `True` throughout. -/

/-- `min_similarity=0.40` (the Python float literal 0.40, modelled exactly). -/
def analyzerMinSimilarity : ℚ := 2 / 5

/-- `shingle_size` default 5. -/
def analyzerShingleSize : Nat := 5

/-- The analyzer's mutable dictionaries and the LSH index. -/
structure AnalyzerState where
  urlToNormalized : List (String × String)
  urlToHash : List (String × String)
  hashToUrls : List (String × List String)
  urlToSignature : List (String × List Nat)
  urlToShingles : List (String × List String)
  buckets : Buckets
deriving DecidableEq, Repr

/-- The empty analyzer (`__init__`). -/
def AnalyzerState.init : AnalyzerState := ⟨[], [], [], [], [], []⟩

/-- The `text_content or extract_visible_text(html)`-with-tags preparation
at the top of `process_page`. -/
def pageTc (m : HashModel) (text html : String) : String :=
  if text = "" ∧ html ≠ "" then m.extractVisible html
  else if text ≠ "" ∧ html ≠ "" then
    ⟨pyStripL (text ++ " " ++ (m.extractTags html).1 ++ " " ++ (m.extractTags html).2).data⟩
  else text

/-- `DuplicateContentAnalyzer.process_page`: append tags/categories to the
text when HTML is available (or extract visible text when only HTML is),
normalize with stopword removal, record hash/shingles/signature, insert into
the LSH index; `html = ""` and `text = ""` model falsy arguments. -/
def processPage (m : HashModel) (st : AnalyzerState) (url text html : String) :
    AnalyzerState :=
  let tc := pageTc m text html
  let normalized := analyzerNormalizeText true tc
  let h := m.sha256Hex normalized
  let shingles := createShingles analyzerShingleSize normalized
  let sig := computeMinhash m shingles
  { urlToNormalized := assocSet st.urlToNormalized url normalized
    urlToHash := assocSet st.urlToHash url h
    hashToUrls := assocAppend st.hashToUrls h url
    urlToShingles := assocSet st.urlToShingles url shingles
    urlToSignature := assocSet st.urlToSignature url sig
    buckets := addDocument m lshCfg url sig st.buckets }

/-- The traditional branch of `calculate_similarity` (word Jaccard, shingle
Jaccard, Ratcliff-Obershelp, weighted 0.3/0.5/0.2). -/
def calculateSimilarityFallback (m : HashModel) (text1 text2 : String) : ℚ :=
  let jac := listJaccard (splitWs text1).dedup (splitWs text2).dedup
  let shJac := listJaccard (createShingles analyzerShingleSize text1)
    (createShingles analyzerShingleSize text2)
  shJac * (1 / 2) + jac * (3 / 10) + m.ratcliffSim text1 text2 * (1 / 5)

/-- `DuplicateContentAnalyzer.calculate_similarity`: 0 on empty text, 1 on
equal text, else the MinHash estimate blended 0.7/0.3 with the shingle
Jaccard when both signatures and both shingle sets are available (truthy),
else the traditional blend. -/
def calculateSimilarity (m : HashModel) (st : AnalyzerState)
    (text1 text2 url1 url2 : String) : ℚ :=
  if text1 = "" ∨ text2 = "" then 0
  else if text1 = text2 then 1
  else
    let viaMinhash :=
      if url1 ≠ "" ∧ url2 ≠ "" then
        match assocFind st.urlToSignature url1, assocFind st.urlToSignature url2 with
        | some s1, some s2 =>
          if s1 ≠ [] ∧ s2 ≠ [] then
            let sh1 := (assocFind st.urlToShingles url1).getD []
            let sh2 := (assocFind st.urlToShingles url2).getD []
            if sh1 ≠ [] ∧ sh2 ≠ [] then
              some (estimateJaccard s1 s2 * (7 / 10) + listJaccard sh1 sh2 * (3 / 10))
            else none
          else none
        | _, _ => none
      else none
    match viaMinhash with
    | some v => v
    | none => calculateSimilarityFallback m text1 text2

/-- `exact_duplicates[url]` in `find_duplicates`: the other URLs sharing the
page's content hash, when the hash is truthy and shared. -/
def exactDuplicatesOf (st : AnalyzerState) (url : String) : List String :=
  match assocFind st.urlToHash url with
  | some h =>
    if h ≠ "" ∧ 1 < ((assocFind st.hashToUrls h).getD []).length then
      ((assocFind st.hashToUrls h).getD []).filter (· ≠ url)
    else []
  | none => []

/-- Python builtin `max` on two rationals (first argument on ties). -/
def pyMax (a b : ℚ) : ℚ := if a < b then b else a

/-- Insert into a similarity-descending list, after strictly larger and
equal entries (so the overall sort is stable, like Python `list.sort`). -/
def insertDescBySim (x : String × ℚ) : List (String × ℚ) → List (String × ℚ)
  | [] => [x]
  | y :: ys => if x.2 < y.2 then y :: insertDescBySim x ys else x :: y :: ys

/-- `matches.sort(key=lambda x: x["similarity"], reverse=True)`: a stable
sort by similarity, descending (insertion sort; Python's timsort computes
the same function). -/
def sortBySimDesc : List (String × ℚ) → List (String × ℚ)
  | [] => []
  | x :: xs => insertDescBySim x (sortBySimDesc xs)

/-- Lexicographic code-point comparison of two strings (Python `<`). -/
def strLt : List Char → List Char → Bool
  | [], [] => false
  | [], _ :: _ => true
  | _ :: _, [] => false
  | a :: as, b :: bs => if a < b then true else if b < a then false else strLt as bs

/-- `tuple(sorted([url1, url2]))` for the `compared_pairs` set. -/
def pairKey (a b : String) : String × String :=
  if strLt b.data a.data then (b, a) else (a, b)

/-- The per-candidate body of `find_duplicates`' MinHash branch: skip pairs
already compared, mark the pair compared, skip exact duplicates and empty
candidate texts, else record `round(similarity, 4)` at or above threshold. -/
def fdCandidateStep (m : HashModel) (st : AnalyzerState) (url1 : String)
    (text1 : String) (exact : List String)
    (acc : List (String × ℚ) × List (String × String)) (url2 : String) :
    List (String × ℚ) × List (String × String) :=
  if pairKey url1 url2 ∈ acc.2 then acc
  else
    let compared := acc.2 ++ [pairKey url1 url2]
    if url2 ∈ exact then (acc.1, compared)
    else
      let text2 := (assocFind st.urlToNormalized url2).getD ""
      if text2 = "" then (acc.1, compared)
      else
        let sim := calculateSimilarity m st text1 text2 url1 url2
        if analyzerMinSimilarity ≤ sim then (acc.1 ++ [(url2, pyRoundTo 4 sim)], compared)
        else (acc.1, compared)

/-- The per-URL body of `find_duplicates`' MinHash branch: empty text short
circuits; exact duplicates are recorded at 1.0; LSH candidates are verified
and the matches sorted by similarity, descending and stable. -/
def fdUrlStep (m : HashModel) (st : AnalyzerState)
    (acc : List (String × List (String × ℚ)) × List (String × String))
    (url1 : String) :
    List (String × List (String × ℚ)) × List (String × String) :=
  let text1 := (assocFind st.urlToNormalized url1).getD ""
  if text1 = "" then (assocSet acc.1 url1 [], acc.2)
  else
    let exact := exactDuplicatesOf st url1
    let matches0 := exact.map (fun d => (d, (1 : ℚ)))
    let mc :=
      match assocFind st.urlToSignature url1 with
      | some s1 =>
        if s1 ≠ [] then
          (findCandidates m lshCfg url1 s1 st.buckets).foldl
            (fdCandidateStep m st url1 text1 exact) (matches0, acc.2)
        else (matches0, acc.2)
      | none => (matches0, acc.2)
    (assocSet acc.1 url1 (sortBySimDesc mc.1), mc.2)

/-- `DuplicateContentAnalyzer.find_duplicates` (the `use_minhash` branch),
mapping each processed URL to its matches. -/
def findDuplicates (m : HashModel) (st : AnalyzerState) :
    List (String × List (String × ℚ)) :=
  ((st.urlToNormalized.map (·.1)).foldl (fdUrlStep m st) ([], [])).1

/-! ### Item pipelines (src/crawler/pipelines.py)

Items flow through `ContentProcessingPipeline` (priority 300) then
`DuplicateDetectionPipeline` (400).  `crawled_at` (a timestamp) and the
write-only `content_hashes` dict are not modelled. -/

/-- A page as the spider hands it to the pipelines. -/
structure RawPage where
  url : String
  textContent : String
  htmlContent : String
deriving DecidableEq, Repr

/-- The pipeline fields of a `PageItem` the claims are about. -/
structure Item where
  url : String
  textContent : String
  htmlContent : String
  wordCount : Nat
  contentHash : String
  isDuplicate : Bool
  duplicateUrls : List String
  simScores : List (String × ℚ)
deriving DecidableEq, Repr

/-- `ContentProcessingPipeline._normalize_text`: lowercase, collapse
whitespace, strip (stop-words retained). -/
def contentNormalizeText (text : String) : String :=
  if text = "" then "" else ⟨pyStripL (collapseWsL (pyLowerL text.data))⟩

/-- `ContentProcessingPipeline.process_item`: normalized text, word count,
SHA-256 content hash. -/
def contentProcessItem (m : HashModel) (raw : RawPage) : Item :=
  let t := contentNormalizeText raw.textContent
  ⟨raw.url, t, raw.htmlContent, (splitWs t).length, m.sha256Hex t, false, [], []⟩

/-- The analyzer-side normalized text of a crawled page: `process_page`
applied to the pipeline-normalized text (stop-words removed, short words
dropped, tags appended when HTML is present). -/
def analyzerTextOf (m : HashModel) (P : RawPage) : String :=
  analyzerNormalizeText true (pageTc m (contentNormalizeText P.textContent) P.htmlContent)

/-- `DuplicateDetectionPipeline` state. -/
structure DupState where
  hashToUrls : List (String × List String)
  urlToContent : List (String × String)
  processedItems : List Item
  analyzer : AnalyzerState
deriving DecidableEq, Repr

/-- Fresh `DuplicateDetectionPipeline`. -/
def DupState.init : DupState := ⟨[], [], [], AnalyzerState.init⟩

/-- The exact-duplicate bookkeeping shared by both branches of
`DuplicateDetectionPipeline.process_item`: store the content, group the URL
under its hash (when truthy), and flag the earlier same-hash URLs. -/
def dupExactStep (ds : DupState) (item : Item) : DupState × Item :=
  let ds1 := { ds with urlToContent := assocSet ds.urlToContent item.url item.textContent }
  let ds2 :=
    if item.contentHash ≠ "" then
      { ds1 with hashToUrls := assocAppend ds1.hashToUrls item.contentHash item.url }
    else ds1
  let dups :=
    if (assocFind ds2.hashToUrls item.contentHash).isSome then
      ((assocFind ds2.hashToUrls item.contentHash).getD []).filter (· ≠ item.url)
    else []
  (ds2, { item with isDuplicate := decide (dups ≠ []), duplicateUrls := dups })

/-- `DuplicateDetectionPipeline.process_item`, advanced branch (the
constructed `DuplicateContentAnalyzer` present, no exception): run the
analyzer on the page, find LSH candidates, and record, per candidate with
retrievable non-empty text, `round(similarity * 100, 2)` when the similarity
is at least 0.40. -/
def dupProcessItem (m : HashModel) (ds : DupState) (item0 : Item) : DupState × Item :=
  let ds1 := (dupExactStep ds item0).1
  let item := (dupExactStep ds item0).2
  let ast := processPage m ds1.analyzer item.url item.textContent item.htmlContent
  let nwt := (assocFind ast.urlToNormalized item.url).getD item.textContent
  let ds2 := { ds1 with
    analyzer := ast
    urlToContent := assocSet ds1.urlToContent item.url nwt }
  let scores :=
    match assocFind ast.urlToSignature item.url with
    | some sig =>
      if sig ≠ [] then
        (findCandidates m lshCfg item.url sig ast.buckets).foldl (fun acc c =>
          let t2n := (assocFind ast.urlToNormalized c).getD ""
          let t2 := if t2n = "" then (assocFind ds2.urlToContent c).getD "" else t2n
          if t2 ≠ "" then
            let sim := calculateSimilarity m ast nwt t2 item.url c
            if analyzerMinSimilarity ≤ sim then assocSet acc c (pyRoundTo 2 (sim * 100))
            else acc
          else acc) []
      else []
    | none => []
  let item2 := { item with simScores := scores }
  ({ ds2 with processedItems := ds2.processedItems ++ [item2] }, item2)

/-- `DuplicateDetectionPipeline._calculate_similarity` (SequenceMatcher). -/
def pipelineCalcSimilarity (m : HashModel) (text1 text2 : String) : ℚ :=
  if text1 = "" ∨ text2 = "" then 0 else m.seqMatchSim text1 text2

/-- `DuplicateDetectionPipeline.process_item`, basic branch (no advanced
analyzer, and likewise the advanced branch's exception fallback): compare
against every already-processed item, recording scores strictly above 0.40. -/
def dupProcessItemBasic (m : HashModel) (ds : DupState) (item0 : Item) :
    DupState × Item :=
  let ds1 := (dupExactStep ds item0).1
  let item := (dupExactStep ds item0).2
  let scores := ds1.processedItems.foldl (fun acc pi =>
    let oc := (assocFind ds1.urlToContent pi.url).getD ""
    if oc ≠ "" ∧ item.textContent ≠ "" then
      let sim := pipelineCalcSimilarity m item.textContent oc
      if analyzerMinSimilarity < sim then assocSet acc pi.url (pyRoundTo 2 (sim * 100))
      else acc
    else acc) []
  let item2 := { item with simScores := scores }
  ({ ds1 with processedItems := ds1.processedItems ++ [item2] }, item2)

/-- `DuplicateDetectionPipeline.close_spider` (advanced branch, no
exception): merge `find_duplicates` results into every processed item's
similarity scores as percentages, keeping the larger value per URL. -/
def closeSpider (m : HashModel) (ds : DupState) : List Item :=
  if ds.processedItems ≠ [] then
    let dres := findDuplicates m ds.analyzer
    ds.processedItems.map (fun item =>
      match assocFind dres item.url with
      | some ms =>
        { item with simScores := ms.foldl (fun sc e =>
            assocSet sc e.1 (pyMax (((sc.find? (·.1 = e.1)).map (·.2)).getD 0)
              (pyRoundTo 2 (e.2 * 100)))) item.simScores }
      | none => item)
  else ds.processedItems

/-- One page through both pipelines (advanced branch). -/
def pipelineStep (m : HashModel) (ds : DupState) (raw : RawPage) : DupState :=
  (dupProcessItem m ds (contentProcessItem m raw)).1

/-- The incremental pass over a crawl's pages, in crawl order. -/
def runIncremental (m : HashModel) (pages : List RawPage) : DupState :=
  pages.foldl (pipelineStep m) DupState.init

/-- A full run: incremental pass then the final `close_spider` pass. -/
def runPipeline (m : HashModel) (pages : List RawPage) : List Item :=
  closeSpider m (runIncremental m pages)

/-- One page through both pipelines (basic branch). -/
def pipelineStepBasic (m : HashModel) (ds : DupState) (raw : RawPage) : DupState :=
  (dupProcessItemBasic m ds (contentProcessItem m raw)).1

/-- A full run on the basic branch: `close_spider` is a no-op there. -/
def runPipelineBasic (m : HashModel) (pages : List RawPage) : List Item :=
  (pages.foldl (pipelineStepBasic m) DupState.init).processedItems

/-- The recorded-similarity symmetry of spec §3/§8, on the items of a run:
whenever B appears in A's map, A appears in B's map with the same value. -/
def SimScoresSymmetric (items : List Item) : Prop :=
  ∀ a ∈ items, ∀ b ∈ items, ∀ v : ℚ,
    assocFind a.simScores b.url = some v → assocFind b.simScores a.url = some v

/-! ### `SiteSpider` frontier (src/crawler/spiders/site_spider.py)

The HTTP layer is modelled as a function from URL to response.  Header and
DOM lookups that `_check_skip_reasons` performs (the `Location` header, the
robots `noindex` meta, the charset-decodability probe) are response fields;
`Location` values are taken as absolute (`urljoin` is not modelled), and
`href`s in the page are taken as absolute as well. -/

/-- A fetched response as the spider's `parse` consumes it. -/
structure HttpResponse where
  url : String
  status : Nat
  /-- The `Location` header, `none` when absent. -/
  location : Option String
  /-- Whether a robots meta tag contains `noindex`. -/
  noindex : Bool
  /-- Whether the declared charset fails to decode the body. -/
  badCharset : Bool
  /-- The `href` targets of the page's anchors. -/
  links : List String
deriving DecidableEq, Repr

/-- An entry of `self.skipped_pages` (the `links_in` placeholder is constant
0 at this point and not modelled). -/
structure SkippedPage where
  url : String
  skipReason : String
  statusCode : Nat
deriving DecidableEq, Repr

/-- Spider configuration fixed at `__init__`. -/
structure SpiderConfig where
  allowedDomains : List String
  maxDepth : Nat
deriving DecidableEq, Repr

/-- The spider's mutable sets and the skipped-page list. -/
structure SpiderState where
  visitedUrls : List String
  discoveredUrls : List String
  allInternalLinks : List String
  skippedPages : List SkippedPage
deriving DecidableEq, Repr

/-- Fresh spider state. -/
def SpiderState.init : SpiderState := ⟨[], [], [], []⟩

/-- `SiteSpider._check_skip_reasons`: 404, then a 3xx with a non-empty
`Location` header, then robots `noindex`, then an unrecognized charset. -/
def checkSkipReasons (resp : HttpResponse) : Option String :=
  if resp.status = 404 then some "Error 404 - Not Found"
  else if (resp.status = 301 ∨ resp.status = 302 ∨ resp.status = 303 ∨
      resp.status = 307 ∨ resp.status = 308) ∧ resp.location.getD "" ≠ "" then
    some ("HTTP Header Redirect " ++ resp.location.getD "")
  else if resp.noindex then some "Robots meta tag contains noindex instruction"
  else if resp.badCharset then some "The character set of this page was not recognized."
  else none

/-- The internal side of `SiteSpider._extract_links`: skip
javascript/mailto/tel/fragment hrefs, drop the fragment, normalize, and
classify by netloc against the allowed domains, deduplicating while keeping
first occurrences. -/
def extractInternalLinks (cfg : SpiderConfig) (resp : HttpResponse) : List String :=
  resp.links.foldl (fun acc href =>
    if href = "" ∨ pyStartsWith href "javascript:" ∨ pyStartsWith href "mailto:" ∨
        pyStartsWith href "tel:" ∨ pyStartsWith href "#" then acc
    else
      let p := urlparse href
      match normalizeUrl (urlunparse ⟨p.scheme, p.netloc, p.path, p.params, p.query, ""⟩) with
      | none => acc
      | some n => if (urlparse n).netloc ∈ cfg.allowedDomains then insertNew acc n else acc) []

/-- The link-following loop of `SiteSpider.parse`: for each internal link,
normalize again; when the result is valid and not yet visited, remember it
and — whether or not it is already discovered — yield a request for it at
`depth + 1` (the `yield` sits outside the `discovered` check). -/
def enqueueLink (depth : Nat) (acc : SpiderState × List (String × Nat)) (href : String) :
    SpiderState × List (String × Nat) :=
  match normalizeUrl href with
  | none => acc
  | some nl =>
    if nl ∉ acc.1.visitedUrls then
      let s1 := { acc.1 with allInternalLinks := insertNew acc.1.allInternalLinks nl }
      let s2 :=
        if nl ∉ s1.discoveredUrls then
          { s1 with discoveredUrls := s1.discoveredUrls ++ [nl] }
        else s1
      (s2, acc.2 ++ [(nl, depth + 1)])
    else acc

/-- `SiteSpider.parse` on one response at one depth: the updated spider
state, the yielded follow-up requests `(url, depth+1)`, and the URLs of the
yielded page items. -/
def parseResponse (cfg : SpiderConfig) (st : SpiderState) (resp : HttpResponse)
    (depth : Nat) : SpiderState × List (String × Nat) × List String :=
  match normalizeUrl resp.url with
  | none => (st, [], [])
  | some n =>
    if n ∈ st.visitedUrls then (st, [], [])
    else
      match checkSkipReasons resp with
      | some r =>
        ({ st with
            skippedPages := st.skippedPages ++ [⟨n, r, resp.status⟩]
            discoveredUrls := insertNew st.discoveredUrls n }, [], [])
      | none =>
        let st1 := { st with
          visitedUrls := st.visitedUrls ++ [n]
          discoveredUrls := insertNew st.discoveredUrls n }
        if depth < cfg.maxDepth then
          let folded := (extractInternalLinks cfg resp).foldl (enqueueLink depth) (st1, [])
          (folded.1, folded.2, [n])
        else (st1, [], [n])

/-- A whole crawl's bookkeeping: spider state, pending queue, and the logs
of every yielded request and page item. -/
structure FrontierState where
  spider : SpiderState
  queue : List (String × Nat)
  requestLog : List String
  items : List String
deriving DecidableEq, Repr

/-- The initial frontier: the seed URL at depth 0. -/
def FrontierState.start (url : String) : FrontierState := ⟨SpiderState.init, [(url, 0)], [], []⟩

/-- Drive the crawl: pop the next pending request (FIFO), `parse` its
response, append the yielded requests.  `fuel` bounds the number of
processed requests. -/
def crawlRun (w : String → HttpResponse) (cfg : SpiderConfig) :
    Nat → FrontierState → FrontierState
  | 0, fs => fs
  | fuel + 1, fs =>
    match fs.queue with
    | [] => fs
    | (u, d) :: rest =>
      let pr := parseResponse cfg fs.spider (w u) d
      crawlRun w cfg fuel
        ⟨pr.1, rest ++ pr.2.1, fs.requestLog ++ pr.2.1.map Prod.fst, fs.items ++ pr.2.2⟩

/-! ### A concrete instantiation of the abstracted effects

Used by the closed witness/counterexample statements; every property proved
at `M0` that matters beyond it is also proved for all `HashModel`s.  The
SHA-256 stand-in prefixes a `#` (injective and never empty, the two facts
the real hex digest provides). -/

def M0 : HashModel :=
  ⟨fun _ => 0, fun _ => 0, List.replicate 128 (1, 0), fun s => "#" ++ s,
   fun _ => ("", ""), fun _ => "", fun _ _ => 0, fun _ _ => 0⟩

/-! ### Concrete fixtures for the closed statements -/

/-- A three-page site: the home page links to `p1` and `p2`, and `p1` links
to `p2` again (everything else is empty). -/
def c3World : String → HttpResponse := fun u =>
  if u = "https://s" then ⟨u, 200, none, false, false, ["https://s/p1", "https://s/p2"]⟩
  else if u = "https://s/p1" then ⟨u, 200, none, false, false, ["https://s/p2"]⟩
  else ⟨u, 200, none, false, false, []⟩

/-- Spider configuration for `c3World`. -/
def c3Cfg : SpiderConfig := ⟨["s"], 2⟩

/-- Two pages with identical raw text (for C1/C2). -/
def pageA : RawPage := ⟨"https://s/a", "Quantum Flux", ""⟩

/-- See `pageA`. -/
def pageB : RawPage := ⟨"https://s/b", "Quantum Flux", ""⟩

/-- Two pages whose pipeline-normalized texts differ only by the stop-word
`the` and by whitespace, so the analyzer normalizes them identically while
the pipeline hashes them differently (for C10). -/
def pageC : RawPage := ⟨"https://s/c", "Quantum Flux The", ""⟩

/-- See `pageC`. -/
def pageD : RawPage := ⟨"https://s/d", "Quantum  flux", ""⟩

/-- A small crawled site for the page-power witness: home links to two
pages, one of which links to a third. -/
def powerPages : List PowerPage :=
  [⟨"https://s", ["https://s/p1", "https://s/p2"]⟩,
   ⟨"https://s/p1", ["https://s/p3"]⟩,
   ⟨"https://s/p2", []⟩,
   ⟨"https://s/p3", []⟩]

/-- The second item of the `pageC`/`pageD` run, a concrete item carrying a
recorded similarity score. -/
def c8item : Item :=
  (runPipeline M0 [pageC, pageD]).getD 1 ⟨"", "", "", 0, "", false, [], []⟩

/-!
## Theorems

First general-purpose helper lemmas, then one theorem per claim (with its
witness or counterexample where required).
-/

theorem addBands_eq_takeWhile (m : HashModel) (rows : Nat) (doc : String)
    (sig : List Nat) (bands : List Nat) (b : Buckets) :
    addBands m rows doc sig bands b =
      (bands.takeWhile (fun i => i * rows + rows ≤ sig.length)).foldl
        (fun bk i => bucketAdd bk (i, m.tupleHash ((sig.drop (i * rows)).take rows)) doc)
        b := by
  induction bands generalizing b with
  | nil => rfl
  | cons x rest ih =>
    by_cases hx : x * rows + rows ≤ sig.length
    · simp [addBands, hx, List.takeWhile_cons, ih]
    · simp [addBands, hx, List.takeWhile_cons]

theorem collectBands_eq_takeWhile (m : HashModel) (rows : Nat) (sig : List Nat)
    (b : Buckets) (bands : List Nat) (acc : List String) :
    collectBands m rows sig b bands acc =
      (bands.takeWhile (fun i => i * rows + rows ≤ sig.length)).foldl
        (fun cs i =>
          (bucketGet b (i, m.tupleHash ((sig.drop (i * rows)).take rows))).foldl
            insertNew cs)
        acc := by
  induction bands generalizing acc with
  | nil => rfl
  | cons x rest ih =>
    by_cases hx : x * rows + rows ≤ sig.length
    · simp [collectBands, hx, List.takeWhile_cons, ih]
    · simp [collectBands, hx, List.takeWhile_cons]

/-- Claim C9 as stated is false on the code: a signature too short for the
configured banding does not raise in LSH insertion, candidate lookup or
signature comparison; all three return normally (the band loops `break`,
`estimate_jaccard` returns `0.0`).  With `num_bands=16, rows_per_band=8`, a
4-slot signature produces an untouched index, an empty candidate set against
a populated index, and a comparison value of 0.0. -/
theorem c9_counterexample :
    addDocument M0 lshCfg "doc" [0, 1, 2, 3] [] = [] ∧
    findCandidates M0 lshCfg "doc" [0, 1, 2, 3]
      (addDocument M0 lshCfg "other" (List.replicate 128 0) []) = [] ∧
    estimateJaccard [0] [0, 0] = 0 := by
  refine ⟨by decide, by decide, by decide⟩

/-- Claim C9 (amended): a signature/banding mismatch in the LSH subsystem is
silently tolerated, not raised: `add_document` and `find_candidates` process
exactly the bands that fit inside the signature (stopping at the first
incomplete band) and return normally, and `estimate_jaccard` returns 0.0
whenever the two signatures differ in length. -/
theorem c9_amended (m : HashModel) (cfg : LshConfig) (doc : String)
    (sig sig2 : List Nat) (b : Buckets) :
    (addDocument m cfg doc sig b =
      ((List.range cfg.numBands).takeWhile (fun i => i * cfg.rowsPerBand + cfg.rowsPerBand ≤ sig.length)).foldl
        (fun bk i => bucketAdd bk
          (i, m.tupleHash ((sig.drop (i * cfg.rowsPerBand)).take cfg.rowsPerBand)) doc) b) ∧
    (findCandidates m cfg doc sig b =
      (((List.range cfg.numBands).takeWhile (fun i => i * cfg.rowsPerBand + cfg.rowsPerBand ≤ sig.length)).foldl
        (fun cs i =>
          (bucketGet b (i, m.tupleHash ((sig.drop (i * cfg.rowsPerBand)).take cfg.rowsPerBand))).foldl
            insertNew cs) []).filter (· ≠ doc)) ∧
    (sig.length ≠ sig2.length → estimateJaccard sig sig2 = 0) := by
  refine ⟨addBands_eq_takeWhile .., ?_, ?_⟩
  · rw [findCandidates, collectBands_eq_takeWhile]
  · intro h
    simp [estimateJaccard, h]

theorem c9_witness :
    [0].length ≠ [0, 0].length ∧ estimateJaccard [0] [0, 0] = 0 :=
  ⟨by decide, (c9_amended M0 lshCfg "doc" [0] [0, 0] []).2.2 (by decide)⟩

/-! #### C5: trailing-slash handling in `_normalize_url` -/

theorem rstripSlashes_append_slash (l : List Char) :
    rstripSlashes (l ++ ['/']) = rstripSlashes l := by
  simp [rstripSlashes, List.dropWhile_cons]

theorem getLast?_of_suffix_concat {t l : List Char} {c : Char}
    (h : t <:+ l ++ [c]) (ht : t ≠ []) : t.getLast? = some c := by
  obtain ⟨s, hs⟩ := h
  have h1 : (s ++ t).getLast? = t.getLast? := List.getLast?_append_of_ne_nil _ ht
  have h2 : (l ++ [c]).getLast? = some c := by
    rw [List.getLast?_append_of_ne_nil _ (by simp)]
    rfl
  rw [← h1, hs, h2]

theorem ignored_ext_last_ne_slash :
    ∀ ext ∈ IGNORED_EXTENSIONS, ("." ++ ext).data.getLast? ≠ some '/' := by decide

theorem pathEndsWithIgnored_append_slash (path : String) :
    pathEndsWithIgnored (path ++ "/") = false := by
  rw [pathEndsWithIgnored, List.any_eq_false]
  intro ext hext
  have hdata : (pyLower (path ++ "/")).data = (pyLower path).data ++ ['/'] := by
    simp [pyLower, pyLowerL, String.data_append, (by decide : pyLowerChar '/' = '/')]
  have hn : ¬ (("." ++ ext).data <:+ (pyLower (path ++ "/")).data) := by
    rw [hdata]
    intro hsuf
    exact ignored_ext_last_ne_slash ext hext
      (getLast?_of_suffix_concat hsuf (by simp [String.data_append]))
  simpa [pyEndsWith, List.isSuffixOf_iff_suffix] using hn

/-- Claim C5 as stated is false on the code: `_normalize_url` strips ALL
trailing slashes (`path.rstrip("/")`), not exactly one.  On
`https://x/a//` the code yields `https://x/a`, while stripping exactly one
slash (the spec's rule (e), `normalizeUrlSpecOneSlash`) yields
`https://x/a/`. -/
theorem c5_counterexample :
    normalizeUrl "https://x/a//" = some "https://x/a" ∧
    normalizeUrlSpecOneSlash "https://x/a//" = some "https://x/a/" ∧
    normalizeUrl "https://x/a//" ≠ normalizeUrlSpecOneSlash "https://x/a//" := by
  refine ⟨by decide, by decide, by decide⟩

/-- Claim C5 (amended): normalization strips ALL trailing `/` from the path,
with the root path normalizing to the empty path: appending a trailing slash
to the path never changes a valid normalization result, `https://x` and
`https://x/` normalize to the same string, and
`normalize("https://EX.com/a/") = normalize("https://ex.com/a")`. -/
theorem c5_amended :
    (∀ p : UrlParts, ∀ v, normalizeParsed p = some v →
      normalizeParsed { p with path := p.path ++ "/" } = some v) ∧
    normalizeUrl "https://EX.com/a/" = normalizeUrl "https://ex.com/a" ∧
    normalizeUrl "https://x/" = normalizeUrl "https://x" ∧
    normalizeUrl "https://x" = some "https://x" := by
  refine ⟨?_, by decide, by decide, by decide⟩
  intro p v h
  rw [normalizeParsed] at h ⊢
  split at h
  · exact absurd h (by simp)
  · rename_i hscheme
    split at h
    · exact absurd h (by simp)
    · rw [if_neg hscheme, if_neg (by simp [pathEndsWithIgnored_append_slash])]
      rw [← h]
      simp [String.data_append, rstripSlashes_append_slash]

theorem c5_witness :
    normalizeParsed (urlparse "https://x/a") = some "https://x/a" ∧
    normalizeParsed
      { urlparse "https://x/a" with path := (urlparse "https://x/a").path ++ "/" } =
      some "https://x/a" :=
  ⟨by decide, c5_amended.1 (urlparse "https://x/a") "https://x/a" (by decide)⟩

/-! #### C4: skip classification in `parse` -/

/-- Claim C4 as stated is false on the code: a 3xx response with no
`Location` header signals a redirect but is NOT skipped —
`_check_skip_reasons` returns `None` for it, and `parse` yields a page item
for the URL with no skip record. -/
theorem c4_counterexample :
    checkSkipReasons ⟨"https://s/r", 301, none, false, false, []⟩ = none ∧
    (parseResponse c3Cfg SpiderState.init
      ⟨"https://s/r", 301, none, false, false, []⟩ 0).2.2 = ["https://s/r"] ∧
    (parseResponse c3Cfg SpiderState.init
      ⟨"https://s/r", 301, none, false, false, []⟩ 0).1.skippedPages = [] := by
  refine ⟨by decide, by decide, by decide⟩

/-- Claim C4 (amended): for every fetched URL not yet visited whose response
signals one of {404, a 3xx redirect carrying a non-empty `Location` header,
robots-meta `noindex`, undecodable character set}, `parse` records exactly
one `SkippedPageRecord` with the matching reason, yields no page item, and
yields no follow-up request; and a skip reason arises exactly under one of
those four conditions. -/
theorem c4_amended (cfg : SpiderConfig) (st : SpiderState) (resp : HttpResponse)
    (depth : Nat) (n r : String)
    (hn : normalizeUrl resp.url = some n) (hv : n ∉ st.visitedUrls)
    (hr : checkSkipReasons resp = some r) :
    parseResponse cfg st resp depth =
      ({ st with
          skippedPages := st.skippedPages ++ [⟨n, r, resp.status⟩]
          discoveredUrls := insertNew st.discoveredUrls n }, [], []) ∧
    (resp.status = 404 ∨
     ((resp.status = 301 ∨ resp.status = 302 ∨ resp.status = 303 ∨
       resp.status = 307 ∨ resp.status = 308) ∧ resp.location.getD "" ≠ "") ∨
     resp.noindex = true ∨ resp.badCharset = true) := by
  constructor
  · simp [parseResponse, hn, hr, hv]
  · rw [checkSkipReasons] at hr
    split at hr
    · exact Or.inl (by assumption)
    · split at hr
      · rename_i hc
        exact Or.inr (Or.inl hc)
      · split at hr
        · rename_i hni
          exact Or.inr (Or.inr (Or.inl hni))
        · split at hr
          · rename_i hbc
            exact Or.inr (Or.inr (Or.inr hbc))
          · exact absurd hr (by simp)

theorem c4_witness :
    parseResponse c3Cfg SpiderState.init
        ⟨"https://s/r", 301, some "https://s/t", false, false, []⟩ 0 =
      ({ SpiderState.init with
          skippedPages := SpiderState.init.skippedPages ++
            [⟨"https://s/r", "HTTP Header Redirect https://s/t", 301⟩]
          discoveredUrls := insertNew SpiderState.init.discoveredUrls "https://s/r" },
        [], []) :=
  (c4_amended c3Cfg SpiderState.init
    ⟨"https://s/r", 301, some "https://s/t", false, false, []⟩ 0
    "https://s/r" "HTTP Header Redirect https://s/t"
    (by decide) (by decide) (by decide)).1

/-! #### C3: re-queuing and item uniqueness -/

theorem enqueueLink_visited (depth : Nat) (acc : SpiderState × List (String × Nat))
    (href : String) :
    (enqueueLink depth acc href).1.visitedUrls = acc.1.visitedUrls := by
  simp only [enqueueLink]
  split
  · rfl
  · split
    · split <;> rfl
    · rfl

theorem foldl_enqueueLink_visited (depth : Nat) (links : List String)
    (acc : SpiderState × List (String × Nat)) :
    (links.foldl (enqueueLink depth) acc).1.visitedUrls = acc.1.visitedUrls := by
  induction links generalizing acc with
  | nil => rfl
  | cons x rest ih => rw [List.foldl_cons, ih, enqueueLink_visited]

theorem enqueueLink_requests (depth : Nat) (acc : SpiderState × List (String × Nat))
    (href : String) (q : String × Nat) (hq : q ∈ (enqueueLink depth acc href).2) :
    q ∈ acc.2 ∨ q.1 ∉ acc.1.visitedUrls := by
  simp only [enqueueLink] at hq
  split at hq
  · exact Or.inl hq
  · split at hq
    · rename_i nl hnl
      simp only [List.mem_append, List.mem_singleton] at hq
      rcases hq with h | h
      · exact Or.inl h
      · subst h
        exact Or.inr hnl
    · exact Or.inl hq

theorem foldl_enqueueLink_requests (depth : Nat) (links : List String)
    (acc : SpiderState × List (String × Nat)) (q : String × Nat)
    (hq : q ∈ (links.foldl (enqueueLink depth) acc).2) :
    q ∈ acc.2 ∨ q.1 ∉ acc.1.visitedUrls := by
  induction links generalizing acc with
  | nil => exact Or.inl hq
  | cons x rest ih =>
    rw [List.foldl_cons] at hq
    rcases ih _ hq with h | h
    · rcases enqueueLink_requests depth acc x q h with h2 | h2
      · exact Or.inl h2
      · exact Or.inr h2
    · rw [enqueueLink_visited] at h
      exact Or.inr h

/-- Every request `parse` yields is for a URL not in `visited` beforehand. -/
theorem parse_requests_not_visited (cfg : SpiderConfig) (st : SpiderState)
    (resp : HttpResponse) (depth : Nat) (q : String × Nat)
    (hq : q ∈ (parseResponse cfg st resp depth).2.1) : q.1 ∉ st.visitedUrls := by
  rw [parseResponse] at hq
  split at hq
  · simp at hq
  · rename_i n hn
    split at hq
    · simp at hq
    · rename_i hv
      split at hq
      · simp at hq
      · split at hq
        · simp only at hq
          rcases foldl_enqueueLink_requests depth _ _ q hq with h | h
          · simp at h
          · simp only [List.append_nil] at h
            intro hmem
            exact h (by simpa using List.mem_append_left [n] hmem)
        · simp at hq

/-- Case analysis of `parse` for the item log: either no item and `visited`
unchanged, or exactly one item for a fresh normalized URL, appended to
`visited`. -/
theorem parse_items_cases (cfg : SpiderConfig) (st : SpiderState)
    (resp : HttpResponse) (depth : Nat) :
    ((parseResponse cfg st resp depth).2.2 = [] ∧
      (parseResponse cfg st resp depth).1.visitedUrls = st.visitedUrls) ∨
    (∃ n, (parseResponse cfg st resp depth).2.2 = [n] ∧ n ∉ st.visitedUrls ∧
      (parseResponse cfg st resp depth).1.visitedUrls = st.visitedUrls ++ [n]) := by
  rw [parseResponse]
  split
  · exact Or.inl ⟨rfl, rfl⟩
  · rename_i n hn
    split
    · exact Or.inl ⟨rfl, rfl⟩
    · rename_i hv
      split
      · exact Or.inl ⟨rfl, rfl⟩
      · split
        · refine Or.inr ⟨n, rfl, hv, ?_⟩
          simp only
          rw [foldl_enqueueLink_visited]
        · exact Or.inr ⟨n, rfl, hv, rfl⟩

/-- Invariant preservation across a full `crawlRun`. -/
theorem crawlRun_items_invariant (w : String → HttpResponse) (cfg : SpiderConfig) :
    ∀ fuel (fs : FrontierState), fs.items.Nodup →
      (∀ u ∈ fs.items, u ∈ fs.spider.visitedUrls) →
      ((crawlRun w cfg fuel fs).items.Nodup ∧
        ∀ u ∈ (crawlRun w cfg fuel fs).items, u ∈ (crawlRun w cfg fuel fs).spider.visitedUrls) := by
  intro fuel
  induction fuel with
  | zero => exact fun fs h1 h2 => ⟨h1, h2⟩
  | succ k ih =>
    intro fs h1 h2
    rw [crawlRun]
    split
    · exact ⟨h1, h2⟩
    · rename_i u d rest hq
      rcases parse_items_cases cfg fs.spider (w u) d with ⟨hi, hvis⟩ | ⟨n, hi, hfresh, hvis⟩
      · refine ih _ ?_ ?_
        · simpa [hi] using h1
        · simpa [hi, hvis] using h2
      · refine ih _ ?_ ?_
        · simp only [hi]
          rw [List.nodup_append]
          refine ⟨h1, by simp, ?_⟩
          intro a ha hb
          simp only [List.mem_singleton] at hb
          subst hb
          exact hfresh (h2 a ha)
        · simp only [hi, hvis]
          intro x hx
          rcases List.mem_append.mp hx with hx | hx
          · exact List.mem_append_left _ (h2 x hx)
          · exact List.mem_append_right _ hx

/-- Claim C3 as stated is false on the code: on a site where the home page
links to `p1` and `p2` and `p1` links to `p2` again, the spider yields TWO
requests for `p2` — the second while `p2` is already in `discovered`
(the `yield` sits outside the `discovered`-membership check). -/
theorem c3_counterexample :
    (crawlRun c3World c3Cfg 10 (FrontierState.start "https://s")).requestLog =
      ["https://s/p1", "https://s/p2", "https://s/p2"] ∧
    (((crawlRun c3World c3Cfg 10 (FrontierState.start "https://s")).requestLog.filter
      (· = "https://s/p2")).length = 2) := by
  refine ⟨by decide, by decide⟩

/-- Claim C3 (amended): a URL already in `visited` is never re-queued (every
yielded request is for a not-yet-visited URL), and — thanks to the
visited-set guard at `parse` entry — each URL appears at most once across
all returned page items; but a URL already in `discovered` and not yet
visited CAN be the subject of further requests (see the counterexample). -/
theorem c3_amended :
    (∀ (cfg : SpiderConfig) (st : SpiderState) (resp : HttpResponse) (depth : Nat),
      ∀ q ∈ (parseResponse cfg st resp depth).2.1, q.1 ∉ st.visitedUrls) ∧
    (∀ (w : String → HttpResponse) (cfg : SpiderConfig) (start : String) (fuel : Nat),
      (crawlRun w cfg fuel (FrontierState.start start)).items.Nodup) := by
  constructor
  · exact fun cfg st resp depth q hq => parse_requests_not_visited cfg st resp depth q hq
  · intro w cfg start fuel
    exact (crawlRun_items_invariant w cfg fuel (FrontierState.start start)
      (by simp [FrontierState.start]) (by simp [FrontierState.start])).1

theorem c3_witness :
    ("https://s/p1", 1) ∈
      (parseResponse c3Cfg SpiderState.init (c3World "https://s") 0).2.1 ∧
    "https://s/p1" ∉ SpiderState.init.visitedUrls ∧
    (crawlRun c3World c3Cfg 10 (FrontierState.start "https://s")).items.Nodup :=
  ⟨by decide,
   c3_amended.1 c3Cfg SpiderState.init (c3World "https://s") 0 ("https://s/p1", 1)
     (by decide),
   c3_amended.2 c3World c3Cfg "https://s" 10⟩

/-! #### C7: page power computation -/

theorem round_mono_q {x y : ℚ} (h : x ≤ y) : (round x : ℤ) ≤ round y := by
  rw [round_eq, round_eq]
  exact Int.floor_le_floor (by linarith)

theorem foldl_min_le_init (l : List ℚ) (a : ℚ) : l.foldl min a ≤ a := by
  induction l generalizing a with
  | nil => simp
  | cons b t ih => exact le_trans (ih (min a b)) (min_le_left a b)

theorem init_le_foldl_max (l : List ℚ) (a : ℚ) : a ≤ l.foldl max a := by
  induction l generalizing a with
  | nil => simp
  | cons b t ih => exact le_trans (le_max_left a b) (ih (max a b))

theorem foldl_min_le (l : List ℚ) (a x : ℚ) (hx : x = a ∨ x ∈ l) :
    l.foldl min a ≤ x := by
  induction l generalizing a with
  | nil => simp [hx.resolve_right (by simp)]
  | cons b t ih =>
    rcases hx with h | h
    · subst h
      exact le_trans (foldl_min_le_init t (min x b)) (min_le_left x b)
    · rcases List.mem_cons.mp h with h | h
      · subst h
        exact le_trans (foldl_min_le_init t (min a x)) (min_le_right a x)
      · exact ih (min a b) (Or.inr h)

theorem le_foldl_max (l : List ℚ) (a x : ℚ) (hx : x = a ∨ x ∈ l) :
    x ≤ l.foldl max a := by
  induction l generalizing a with
  | nil => simp [hx.resolve_right (by simp)]
  | cons b t ih =>
    rcases hx with h | h
    · subst h
      exact le_trans (le_max_left x b) (init_le_foldl_max t (max x b))
    · rcases List.mem_cons.mp h with h | h
      · subst h
        exact le_trans (le_max_right a x) (init_le_foldl_max t (max a x))
      · exact ih (max a b) (Or.inr h)

theorem pyRoundTo_bounds {q : ℚ} (h0 : 0 ≤ q) (h1 : q ≤ 100) :
    0 ≤ pyRoundTo 2 q ∧ pyRoundTo 2 q ≤ 100 := by
  rw [pyRoundTo]
  constructor
  · have h2 : (0 : ℤ) ≤ round (q * 10 ^ 2) := by
      simpa using round_mono_q (show (0 : ℚ) ≤ q * 10 ^ 2 by positivity)
    refine div_nonneg ?_ (by norm_num)
    exact_mod_cast h2
  · have h2 : (round (q * 10 ^ 2) : ℤ) ≤ round ((10000 : ℤ) : ℚ) :=
      round_mono_q (by push_cast; nlinarith)
    rw [round_intCast] at h2
    rw [div_le_iff₀ (by norm_num)]
    calc ((round (q * 10 ^ 2) : ℤ) : ℚ) ≤ ((10000 : ℤ) : ℚ) := by exact_mod_cast h2
      _ = 100 * 10 ^ 2 := by norm_num

/-- Every score produced by min-max normalization lies in `[0, 100]`. -/
theorem minMaxNormalize_bounds (power : List (String × ℚ)) :
    ∀ e ∈ minMaxNormalize power, 0 ≤ e.2 ∧ e.2 ≤ 100 := by
  intro e he
  rw [minMaxNormalize] at he
  split at he
  · simp at he
  · rename_i v vs hvals
    obtain ⟨p, hp, hpe⟩ := List.mem_map.mp he
    have hx : p.2 = v ∨ p.2 ∈ vs := by
      have : p.2 ∈ power.map (·.2) := List.mem_map.mpr ⟨p, hp, rfl⟩
      rw [hvals] at this
      exact List.mem_cons.mp this
    have hmn : vs.foldl min v ≤ p.2 := foldl_min_le vs v p.2 hx
    have hmx : p.2 ≤ vs.foldl max v := le_foldl_max vs v p.2 hx
    subst hpe
    simp only
    by_cases hlt : vs.foldl min v < vs.foldl max v
    · rw [if_pos hlt]
      refine pyRoundTo_bounds ?_ ?_
      · exact mul_nonneg (div_nonneg (by linarith) (by linarith)) (by norm_num)
      · rw [div_mul_eq_mul_div, div_le_iff₀ (by linarith)]
        nlinarith
    · rw [if_neg hlt]
      have : p.2 = vs.foldl min v := le_antisymm (by linarith [not_lt.mp hlt]) hmn
      rw [this]
      simp [pyRoundTo]

theorem foldl_ite_add {α : Type} (g : List α) (P : α → Prop) [DecidablePred P]
    (f : α → ℚ) (init : ℚ) :
    g.foldl (fun acc x => if P x then acc + f x else acc) init =
      init + ((g.filter (fun x => decide (P x))).map f).sum := by
  induction g generalizing init with
  | nil => simp
  | cons a t ih =>
    by_cases h : P a
    · simp [h, ih, add_assoc]
    · simp [h, ih]

/-- The source's accumulation loop computes exactly the spec's sum, whenever
every graph source has a power entry. -/
theorem powerStep_eq_spec (graph : List (String × List String)) (urls : List String)
    (power : List (String × ℚ))
    (h : ∀ sl ∈ graph, (power.find? (·.1 = sl.1)).isSome) :
    powerStep graph urls power = powerStepSpec graph urls power := by
  rw [powerStep, powerStepSpec]
  refine List.map_congr_left ?_
  intro url hu
  refine congrArg _ (congrArg _ ?_)
  rw [foldl_ite_add graph (fun sl => url ∈ sl.2 ∧ (power.find? (·.1 = sl.1)).isSome)]
  rw [zero_add]
  have hfilter :
      List.filter (fun x => decide (url ∈ x.2 ∧
        (List.find? (fun y => decide (y.1 = x.1)) power).isSome = true)) graph =
      List.filter (fun sl => decide (url ∈ sl.2)) graph :=
    List.filter_congr (fun sl hsl => by simp [h sl hsl])
  rw [hfilter]
  refine congrArg _ (List.map_congr_left ?_)
  intro sl hsl
  have : url ∈ sl.2 := by
    have := (List.mem_filter.mp hsl).2
    simpa using this
  have hlen : sl.2.length ≠ 0 := by
    intro h0
    rw [List.length_eq_zero] at h0
    rw [h0] at this
    simp at this
  rw [if_neg hlen]

theorem powerStep_keys (graph : List (String × List String)) (urls : List String)
    (power : List (String × ℚ)) :
    (powerStep graph urls power).map (·.1) = urls := by
  rw [powerStep, List.map_map]
  exact List.map_id _

theorem powerStepSpec_keys (graph : List (String × List String)) (urls : List String)
    (power : List (String × ℚ)) :
    (powerStepSpec graph urls power).map (·.1) = urls := by
  rw [powerStepSpec, List.map_map]
  exact List.map_id _

theorem find_isSome_of_mem_keys (power : List (String × ℚ)) (k : String)
    (h : k ∈ power.map (·.1)) : (power.find? (·.1 = k)).isSome := by
  obtain ⟨p, hp, hk⟩ := List.mem_map.mp h
  rw [List.find?_isSome]
  exact ⟨p, hp, by simp [hk]⟩

theorem iterate_powerStep_eq (graph : List (String × List String)) (urls : List String)
    (hg : ∀ sl ∈ graph, sl.1 ∈ urls) (n : Nat) (power : List (String × ℚ))
    (hk : power.map (·.1) = urls) :
    (powerStep graph urls)^[n] power = (powerStepSpec graph urls)^[n] power := by
  induction n generalizing power with
  | zero => rfl
  | succ k ih =>
    rw [Function.iterate_succ_apply, Function.iterate_succ_apply]
    have hstep : powerStep graph urls power = powerStepSpec graph urls power :=
      powerStep_eq_spec graph urls power
        (fun sl hsl => find_isSome_of_mem_keys power sl.1 (hk ▸ hg sl hsl))
    rw [hstep]
    exact ih _ (powerStepSpec_keys graph urls _)

theorem buildLinkGraph_sources (pages : List PowerPage) :
    ∀ sl ∈ buildLinkGraph pages, sl.1 ∈ (pages.filter (·.url ≠ "")).map (·.url) := by
  intro sl hsl
  rw [buildLinkGraph] at hsl
  obtain ⟨pg, hpg, hsl⟩ := List.mem_map.mp hsl
  subst hsl
  exact List.mem_map.mpr ⟨pg, hpg, rfl⟩

theorem initPower_keys (urls : List String) : (initPower urls).map (·.1) = urls := by
  rw [initPower]
  split <;> (rw [List.map_map]; exact List.map_id _)

/-- Claim C7: `analyze_site` initializes every crawled page's power to 1.0
(the empty/root-path page to 2.0, via `initPower`), runs exactly 10 rounds
in which every page's new power is `(1-0.85)/N` plus, over every crawled
page linking to it, that source's power times 0.85 over its crawled
outbound-link count (zero-outbound pages contributing nothing) — the spec's
sum formula `powerStepSpec` — and min-max normalizes so that every returned
score lies in `[0, 100]`. -/
theorem c7_theorem (pages : List PowerPage)
    (hne : pages ≠ [])
    (hurls : (pages.filter (·.url ≠ "")).map (·.url) ≠ []) :
    calculatePagePowers pages =
      minMaxNormalize ((powerStepSpec (buildLinkGraph pages)
          ((pages.filter (·.url ≠ "")).map (·.url)))^[10]
        (initPower ((pages.filter (·.url ≠ "")).map (·.url)))) ∧
    ∀ e ∈ calculatePagePowers pages, 0 ≤ e.2 ∧ e.2 ≤ 100 := by
  have heq : calculatePagePowers pages =
      minMaxNormalize ((powerStepSpec (buildLinkGraph pages)
          ((pages.filter (·.url ≠ "")).map (·.url)))^[10]
        (initPower ((pages.filter (·.url ≠ "")).map (·.url)))) := by
    rw [calculatePagePowers, if_neg hne]
    simp only [if_neg hurls]
    rw [iterate_powerStep_eq (buildLinkGraph pages) _
      (buildLinkGraph_sources pages) 10 _ (initPower_keys _)]
  exact ⟨heq, by rw [heq]; exact minMaxNormalize_bounds _⟩

theorem c7_witness :
    powerPages ≠ [] ∧ ∀ e ∈ calculatePagePowers powerPages, 0 ≤ e.2 ∧ e.2 ≤ 100 :=
  ⟨by decide, (c7_theorem powerPages (by decide) (by decide)).2⟩

/-! #### C2: exact-duplicate flags -/

theorem dupExactStep_hashToUrls (ds : DupState) (i : Item) :
    (dupExactStep ds i).1.hashToUrls =
      if i.contentHash ≠ "" then assocAppend ds.hashToUrls i.contentHash i.url
      else ds.hashToUrls := by
  simp only [dupExactStep]
  split <;> rfl

theorem dupExactStep_item (ds : DupState) (i : Item) :
    (dupExactStep ds i).2.url = i.url ∧
    (dupExactStep ds i).2.contentHash = i.contentHash ∧
    (dupExactStep ds i).2.duplicateUrls =
      (if (assocFind (dupExactStep ds i).1.hashToUrls i.contentHash).isSome then
        ((assocFind (dupExactStep ds i).1.hashToUrls i.contentHash).getD []).filter
          (· ≠ i.url)
      else []) ∧
    (dupExactStep ds i).2.isDuplicate =
      decide ((dupExactStep ds i).2.duplicateUrls ≠ []) := by
  refine ⟨rfl, rfl, rfl, ?_⟩
  simp only [dupExactStep]

theorem dupProcessItem_item_fields (m : HashModel) (ds : DupState) (i : Item) :
    (dupProcessItem m ds i).2.url = (dupExactStep ds i).2.url ∧
    (dupProcessItem m ds i).2.contentHash = (dupExactStep ds i).2.contentHash ∧
    (dupProcessItem m ds i).2.isDuplicate = (dupExactStep ds i).2.isDuplicate ∧
    (dupProcessItem m ds i).2.duplicateUrls = (dupExactStep ds i).2.duplicateUrls :=
  ⟨rfl, rfl, rfl, rfl⟩

theorem dupExactStep_processedItems (ds : DupState) (i : Item) :
    (dupExactStep ds i).1.processedItems = ds.processedItems := by
  simp only [dupExactStep]
  split <;> rfl

theorem dupProcessItem_state (m : HashModel) (ds : DupState) (i : Item) :
    (dupProcessItem m ds i).1.processedItems =
      ds.processedItems ++ [(dupProcessItem m ds i).2] ∧
    (dupProcessItem m ds i).1.hashToUrls = (dupExactStep ds i).1.hashToUrls := by
  constructor
  · calc (dupProcessItem m ds i).1.processedItems
        = (dupExactStep ds i).1.processedItems ++ [(dupProcessItem m ds i).2] := rfl
      _ = ds.processedItems ++ [(dupProcessItem m ds i).2] := by
          rw [dupExactStep_processedItems]
  · rfl

/-- `close_spider` only rewrites similarity scores: the url, content hash and
exact-duplicate fields of every processed item survive unchanged. -/
theorem closeSpider_fields (m : HashModel) (ds : DupState) :
    (closeSpider m ds).map (fun i => (i.url, i.contentHash, i.isDuplicate, i.duplicateUrls)) =
      ds.processedItems.map (fun i => (i.url, i.contentHash, i.isDuplicate, i.duplicateUrls)) := by
  rw [closeSpider]
  split
  · rw [List.map_map]
    refine List.map_congr_left (fun i hi => ?_)
    simp only [Function.comp_apply]
    split <;> rfl
  · rfl

/-- Claim C2 as stated is false on the code: with two identical-text pages
crawled in order, the FIRST page's `is_duplicate` stays `False` and its
`duplicate_urls` stays empty — the pipeline never revisits earlier items —
even though the second page is flagged and lists the first. -/
theorem c2_counterexample :
    contentNormalizeText pageA.textContent = contentNormalizeText pageB.textContent ∧
    (runPipeline M0 [pageA, pageB]).map (fun i => (i.url, i.isDuplicate, i.duplicateUrls)) =
      [("https://s/a", false, []), ("https://s/b", true, ["https://s/a"])] := by
  refine ⟨by decide, by decide⟩

/-- Claim C2 (amended): for a run over two pages with identical normalized
text, both content hashes are equal (SHA-256 of the normalized text), the
LATER-crawled page has `isDuplicate = true` and lists the earlier page in
`duplicateURLs`, while the EARLIER page — having no duplicate at its
processing time — keeps `isDuplicate = false` and an empty `duplicateURLs`
(the flags are never updated retroactively). -/
theorem c2_amended (m : HashModel) (A B : RawPage)
    (hne : ∀ s, m.sha256Hex s ≠ "")
    (htext : contentNormalizeText A.textContent = contentNormalizeText B.textContent)
    (hurl : A.url ≠ B.url) :
    (runPipeline m [A, B]).map (fun i => (i.url, i.contentHash, i.isDuplicate, i.duplicateUrls)) =
      [(A.url, m.sha256Hex (contentNormalizeText A.textContent), false, []),
       (B.url, m.sha256Hex (contentNormalizeText A.textContent), true, [A.url])] := by
  have hA : contentProcessItem m A =
      ⟨A.url, contentNormalizeText A.textContent, A.htmlContent,
        (splitWs (contentNormalizeText A.textContent)).length,
        m.sha256Hex (contentNormalizeText A.textContent), false, [], []⟩ := rfl
  have hB : contentProcessItem m B =
      ⟨B.url, contentNormalizeText B.textContent, B.htmlContent,
        (splitWs (contentNormalizeText B.textContent)).length,
        m.sha256Hex (contentNormalizeText A.textContent), false, [], []⟩ := by
    rw [contentProcessItem, htext]
  rw [runPipeline, closeSpider_fields, runIncremental, List.foldl_cons, List.foldl_cons,
    List.foldl_nil]
  rw [pipelineStep, pipelineStep]
  rw [(dupProcessItem_state m _ _).1, (dupProcessItem_state m _ _).1]
  rw [(show DupState.init.processedItems = [] from rfl)]
  simp only [List.nil_append, List.map_append]
  have hash1 : (dupExactStep DupState.init (contentProcessItem m A)).1.hashToUrls =
      [(m.sha256Hex (contentNormalizeText A.textContent), [A.url])] := by
    rw [dupExactStep_hashToUrls, hA]
    simp [assocAppend, hne _, DupState.init]
  have item1 : (dupExactStep DupState.init (contentProcessItem m A)).2.duplicateUrls = []
      ∧ (dupExactStep DupState.init (contentProcessItem m A)).2.isDuplicate = false := by
    obtain ⟨-, -, hd, hb⟩ := dupExactStep_item DupState.init (contentProcessItem m A)
    rw [hash1] at hd
    simp only [assocFind,
      (show (contentProcessItem m A).contentHash =
        m.sha256Hex (contentNormalizeText A.textContent) from rfl),
      (show (contentProcessItem m A).url = A.url from rfl)] at hd
    simp at hd
    exact ⟨hd, by simp [hb, hd]⟩
  have hstate1 : (dupProcessItem m DupState.init (contentProcessItem m A)).1.hashToUrls =
      [(m.sha256Hex (contentNormalizeText A.textContent), [A.url])] := by
    rw [(dupProcessItem_state m _ _).2, hash1]
  have hash2 : (dupExactStep (dupProcessItem m DupState.init (contentProcessItem m A)).1
      (contentProcessItem m B)).1.hashToUrls =
      [(m.sha256Hex (contentNormalizeText A.textContent), [A.url, B.url])] := by
    rw [dupExactStep_hashToUrls, hB]
    simp [assocAppend, hne _, hstate1]
  have item2 : (dupExactStep (dupProcessItem m DupState.init (contentProcessItem m A)).1
        (contentProcessItem m B)).2.duplicateUrls = [A.url] ∧
      (dupExactStep (dupProcessItem m DupState.init (contentProcessItem m A)).1
        (contentProcessItem m B)).2.isDuplicate = true := by
    obtain ⟨-, -, hd, hb⟩ := dupExactStep_item
      (dupProcessItem m DupState.init (contentProcessItem m A)).1 (contentProcessItem m B)
    have hch : (contentProcessItem m B).contentHash =
        m.sha256Hex (contentNormalizeText A.textContent) := by rw [hB]
    rw [hash2] at hd
    simp only [assocFind, hch,
      (show (contentProcessItem m B).url = B.url from rfl)] at hd
    simp [hurl, Ne.symm hurl] at hd
    exact ⟨hd, by simp [hb, hd]⟩
  obtain ⟨hu1, hc1, hb1, hd1⟩ := dupProcessItem_item_fields m DupState.init (contentProcessItem m A)
  obtain ⟨hu2, hc2, hb2, hd2⟩ := dupProcessItem_item_fields m
    (dupProcessItem m DupState.init (contentProcessItem m A)).1 (contentProcessItem m B)
  simp only [List.map_cons, List.map_nil, hu1, hc1, hb1, hd1, hu2, hc2, hb2, hd2,
    item1.1, item1.2, item2.1, item2.2,
    (dupExactStep_item DupState.init (contentProcessItem m A)).1,
    (dupExactStep_item DupState.init (contentProcessItem m A)).2.1,
    (dupExactStep_item (dupProcessItem m DupState.init (contentProcessItem m A)).1
      (contentProcessItem m B)).1,
    (dupExactStep_item (dupProcessItem m DupState.init (contentProcessItem m A)).1
      (contentProcessItem m B)).2.1,
    (show (contentProcessItem m A).url = A.url from rfl),
    (show (contentProcessItem m B).url = B.url from rfl),
    (show (contentProcessItem m A).contentHash =
      m.sha256Hex (contentNormalizeText A.textContent) from rfl),
    (show (contentProcessItem m B).contentHash =
      m.sha256Hex (contentNormalizeText B.textContent) from rfl),
    htext]
  rfl

theorem c2_witness :
    contentNormalizeText pageA.textContent = contentNormalizeText pageB.textContent ∧
    (runPipeline M0 [pageA, pageB]).map (fun i => (i.url, i.contentHash, i.isDuplicate, i.duplicateUrls)) =
      [(pageA.url, M0.sha256Hex (contentNormalizeText pageA.textContent), false, []),
       (pageB.url, M0.sha256Hex (contentNormalizeText pageA.textContent), true, [pageA.url])] :=
  ⟨by decide, c2_amended M0 pageA pageB
    (fun s h => by
      have h2 := congrArg String.data h
      simp [M0, String.data_append] at h2)
    (by decide) (by decide)⟩

/-! #### C8: the similarity threshold guards every recorded score -/

theorem foldl_preserves {A B : Type} (P : B → Prop) (f : B → A → B) :
    ∀ (l : List A), (∀ x a, a ∈ l → P x → P (f x a)) → ∀ b : B, P b → P (l.foldl f b) := by
  intro l
  induction l with
  | nil => exact fun _ b hb => hb
  | cons y ys ih =>
    intro hf b hb
    exact ih (fun x a ha hx => hf x a (List.mem_cons_of_mem y ha) hx) (f b y)
      (hf b y (List.mem_cons_self y ys) hb)

theorem mem_assocSet {A : Type} {l : List (String × A)} {k : String} {v : A}
    {e : String × A} (he : e ∈ assocSet l k v) : e = (k, v) ∨ e ∈ l := by
  rw [assocSet] at he
  split at he
  · obtain ⟨p, hp, hpe⟩ := List.mem_map.mp he
    split at hpe
    · exact Or.inl hpe.symm
    · exact Or.inr (hpe ▸ hp)
  · rcases List.mem_append.mp he with h | h
    · exact Or.inr h
    · exact Or.inl (List.mem_singleton.mp h)

theorem assocFind_some_mem {A : Type} {l : List (String × A)} {k : String} {v : A}
    (h : assocFind l k = some v) : (k, v) ∈ l := by
  rw [assocFind] at h
  obtain ⟨p, hfind, hpv⟩ := Option.map_eq_some'.mp h
  have hm := List.mem_of_find?_eq_some hfind
  have hk : p.1 = k := by simpa using List.find?_some hfind
  have hv : p.2 = v := hpv
  have hkv : (k, v) = p := by rw [← hk, ← hv]
  rwa [hkv]

theorem mem_insertDescBySim {x e : String × ℚ} {l : List (String × ℚ)}
    (he : e ∈ insertDescBySim x l) : e = x ∨ e ∈ l := by
  induction l with
  | nil =>
    simp only [insertDescBySim] at he
    exact Or.inl (List.mem_singleton.mp he)
  | cons y ys ih =>
    simp only [insertDescBySim] at he
    split at he
    · rcases List.mem_cons.mp he with h | h
      · exact Or.inr (List.mem_cons.mpr (Or.inl h))
      · rcases ih h with h2 | h2
        · exact Or.inl h2
        · exact Or.inr (List.mem_cons.mpr (Or.inr h2))
    · rcases List.mem_cons.mp he with h | h
      · exact Or.inl h
      · exact Or.inr h

theorem mem_sortBySimDesc {e : String × ℚ} {l : List (String × ℚ)}
    (he : e ∈ sortBySimDesc l) : e ∈ l := by
  induction l with
  | nil => simpa [sortBySimDesc] using he
  | cons y ys ih =>
    simp only [sortBySimDesc] at he
    rcases mem_insertDescBySim he with h | h
    · exact List.mem_cons.mpr (Or.inl h)
    · exact List.mem_cons.mpr (Or.inr (ih h))

theorem pyRoundTo_ge_of_int (n : Nat) (q : ℚ) (k : ℤ) (h : (k : ℚ) ≤ q * 10 ^ n) :
    ((k : ℚ)) / 10 ^ n ≤ pyRoundTo n q := by
  rw [pyRoundTo]
  have h2 : k ≤ round (q * 10 ^ n) := by
    have h3 := round_mono_q h
    rwa [round_intCast] at h3
  have h3 : ((k : ℚ)) ≤ ((round (q * 10 ^ n) : ℤ) : ℚ) := by exact_mod_cast h2
  rw [div_le_div_iff (by positivity) (by positivity)]
  exact mul_le_mul_of_nonneg_right h3 (by positivity)

theorem forty_le_pyRoundTo2 {q : ℚ} (h : 40 ≤ q) : (40 : ℚ) ≤ pyRoundTo 2 q := by
  have h2 := pyRoundTo_ge_of_int 2 q 4000 (by push_cast; nlinarith)
  have h3 : ((4000 : ℤ) : ℚ) / 10 ^ 2 = 40 := by norm_num
  rw [h3] at h2
  exact h2

theorem twoFifth_le_pyRoundTo4 {q : ℚ} (h : (2 : ℚ)/5 ≤ q) : (2 : ℚ)/5 ≤ pyRoundTo 4 q := by
  have h2 := pyRoundTo_ge_of_int 4 q 4000 (by push_cast; nlinarith)
  have h3 : ((4000 : ℤ) : ℚ) / 10 ^ 4 = 2/5 := by norm_num
  rw [h3] at h2
  exact h2

theorem le_pyMax_right (a b : ℚ) : b ≤ pyMax a b := by
  rw [pyMax]
  split
  · exact le_refl b
  · exact le_of_not_lt (by assumption)

theorem fdCandidateStep_scores (m : HashModel) (st : AnalyzerState) (url1 : String)
    (text1 : String) (exact : List String)
    (acc : List (String × ℚ) × List (String × String)) (url2 : String)
    (hacc : ∀ e ∈ acc.1, (2 : ℚ)/5 ≤ e.2) :
    ∀ e ∈ (fdCandidateStep m st url1 text1 exact acc url2).1, (2 : ℚ)/5 ≤ e.2 := by
  intro e he
  simp only [fdCandidateStep] at he
  split at he
  · exact hacc e he
  · split at he
    · exact hacc e he
    · split at he
      · exact hacc e he
      · split at he
        · rename_i hsim
          rcases List.mem_append.mp he with h | h
          · exact hacc e h
          · have hx := List.mem_singleton.mp h
            rw [hx]
            have hs : (2 : ℚ)/5 ≤ _ := hsim
            exact twoFifth_le_pyRoundTo4 hs
        · exact hacc e he

theorem fdUrlStep_scores (m : HashModel) (st : AnalyzerState)
    (acc : List (String × List (String × ℚ)) × List (String × String)) (url1 : String)
    (hacc : ∀ p ∈ acc.1, ∀ e ∈ p.2, (2 : ℚ)/5 ≤ e.2) :
    ∀ p ∈ (fdUrlStep m st acc url1).1, ∀ e ∈ p.2, (2 : ℚ)/5 ≤ e.2 := by
  have hm0 : ∀ x ∈ (exactDuplicatesOf st url1).map (fun d => (d, (1 : ℚ))),
      (2 : ℚ)/5 ≤ x.2 := by
    intro x hx
    obtain ⟨d, _, hdx⟩ := List.mem_map.mp hx
    rw [← hdx]
    norm_num
  intro p hp
  simp only [fdUrlStep] at hp
  split at hp
  · rcases mem_assocSet hp with h | h
    · intro e he
      rw [h] at he
      simp at he
    · exact hacc p h
  · rcases mem_assocSet hp with h | h
    · intro e he
      rw [h] at he
      have he2 := mem_sortBySimDesc (show e ∈ sortBySimDesc _ from he)
      split at he2
      · split at he2
        · exact foldl_preserves (fun a => ∀ x ∈ a.1, (2 : ℚ)/5 ≤ x.2) _ _
            (fun x c _ hx => fdCandidateStep_scores m st url1 _ _ x c hx) _ hm0 e he2
        · exact hm0 e he2
      · exact hm0 e he2
    · exact hacc p h

theorem findDuplicates_scores (m : HashModel) (st : AnalyzerState) :
    ∀ p ∈ findDuplicates m st, ∀ e ∈ p.2, (2 : ℚ)/5 ≤ e.2 := by
  rw [findDuplicates]
  exact foldl_preserves (fun a => ∀ p ∈ a.1, ∀ e ∈ p.2, (2 : ℚ)/5 ≤ e.2) _ _
    (fun a u _ ha => fdUrlStep_scores m st a u ha) ([], []) (by simp)

theorem dupProcessItem_scores (m : HashModel) (ds : DupState) (it : Item) :
    ∀ e ∈ (dupProcessItem m ds it).2.simScores, (40 : ℚ) ≤ e.2 := by
  intro e he
  simp only [dupProcessItem] at he
  split at he
  · split at he
    · refine foldl_preserves (fun a => ∀ x ∈ a, (40 : ℚ) ≤ x.2) _ _
        (fun a c _ ha x hx => ?_) [] (by simp) e he
      repeat' split at hx
      all_goals
        first
        | exact ha x hx
        | (rename_i hsim
           rcases mem_assocSet hx with h | h
           · rw [h]
             have hs : (2 : ℚ)/5 ≤ _ := hsim
             exact forty_le_pyRoundTo2 (by linarith)
           · exact ha x h)
    · simp at he
  · simp at he

theorem dupProcessItemBasic_scores (m : HashModel) (ds : DupState) (it : Item) :
    ∀ e ∈ (dupProcessItemBasic m ds it).2.simScores, (40 : ℚ) ≤ e.2 := by
  intro e he
  simp only [dupProcessItemBasic] at he
  refine foldl_preserves (fun a => ∀ x ∈ a, (40 : ℚ) ≤ x.2) _ _
    (fun a pi _ ha x hx => ?_) [] (by simp) e he
  repeat' split at hx
  all_goals
    first
    | exact ha x hx
    | (rename_i hsim
       rcases mem_assocSet hx with h | h
       · rw [h]
         have hs : (2 : ℚ)/5 < _ := hsim
         exact forty_le_pyRoundTo2 (by linarith)
       · exact ha x h)

theorem dupProcessItemBasic_state (m : HashModel) (ds : DupState) (i : Item) :
    (dupProcessItemBasic m ds i).1.processedItems =
      ds.processedItems ++ [(dupProcessItemBasic m ds i).2] := by
  calc (dupProcessItemBasic m ds i).1.processedItems
      = (dupExactStep ds i).1.processedItems ++ [(dupProcessItemBasic m ds i).2] := rfl
    _ = ds.processedItems ++ [(dupProcessItemBasic m ds i).2] := by
        rw [dupExactStep_processedItems]

theorem runIncremental_scores (m : HashModel) (pages : List RawPage) :
    ∀ i ∈ (runIncremental m pages).processedItems, ∀ e ∈ i.simScores, (40 : ℚ) ≤ e.2 := by
  rw [runIncremental]
  refine foldl_preserves
    (fun ds => ∀ i ∈ ds.processedItems, ∀ e ∈ i.simScores, (40 : ℚ) ≤ e.2)
    (pipelineStep m) pages (fun ds raw _ hds i hi => ?_) DupState.init (by simp [DupState.init])
  rw [pipelineStep] at hi
  rw [(dupProcessItem_state m ds (contentProcessItem m raw)).1] at hi
  rcases List.mem_append.mp hi with h | h
  · exact hds i h
  · rw [List.mem_singleton.mp h]
    exact dupProcessItem_scores m ds (contentProcessItem m raw)

theorem runPipelineBasic_scores (m : HashModel) (pages : List RawPage) :
    ∀ i ∈ runPipelineBasic m pages, ∀ e ∈ i.simScores, (40 : ℚ) ≤ e.2 := by
  rw [runPipelineBasic]
  refine foldl_preserves
    (fun ds => ∀ i ∈ ds.processedItems, ∀ e ∈ i.simScores, (40 : ℚ) ≤ e.2)
    (pipelineStepBasic m) pages (fun ds raw _ hds i hi => ?_) DupState.init
    (by simp [DupState.init])
  rw [pipelineStepBasic] at hi
  rw [dupProcessItemBasic_state m ds (contentProcessItem m raw)] at hi
  rcases List.mem_append.mp hi with h | h
  · exact hds i h
  · rw [List.mem_singleton.mp h]
    exact dupProcessItemBasic_scores m ds (contentProcessItem m raw)

theorem closeSpider_scores (m : HashModel) (ds : DupState)
    (hds : ∀ i ∈ ds.processedItems, ∀ e ∈ i.simScores, (40 : ℚ) ≤ e.2) :
    ∀ i ∈ closeSpider m ds, ∀ e ∈ i.simScores, (40 : ℚ) ≤ e.2 := by
  intro i hi
  simp only [closeSpider] at hi
  split at hi
  · obtain ⟨i0, hi0, heq⟩ := List.mem_map.mp hi
    rcases hms : assocFind (findDuplicates m ds.analyzer) i0.url with _ | ms
    · simp only [hms] at heq
      subst heq
      exact hds i0 hi0
    · simp only [hms] at heq
      subst heq
      intro e he
      refine foldl_preserves (fun sc => ∀ x ∈ sc, (40 : ℚ) ≤ x.2) _ ms
        (fun sc p hp hsc x hx => ?_) i0.simScores (hds i0 hi0) e he
      rcases mem_assocSet hx with h | h
      · rw [h]
        have hpv : (2 : ℚ)/5 ≤ p.2 := findDuplicates_scores m ds.analyzer (i0.url, ms)
          (assocFind_some_mem hms) p hp
        have h40 : (40 : ℚ) ≤ pyRoundTo 2 (p.2 * 100) := forty_le_pyRoundTo2 (by linarith)
        exact le_trans h40 (le_pyMax_right _ _)
      · exact hsc x h
  · exact hds i hi

/-- Claim C8: every recorded `similarityScores` entry sits at or above the
similarity threshold (0.40 as a fraction, 40 as a stored percentage) — on
the incremental per-item pass of the advanced branch, on the final
`close_spider` merge, and on the basic fallback comparison path, for every
model and every crawl. -/
theorem c8_theorem (m : HashModel) (pages : List RawPage) :
    (∀ i ∈ (runIncremental m pages).processedItems, ∀ e ∈ i.simScores, (40 : ℚ) ≤ e.2) ∧
    (∀ i ∈ runPipeline m pages, ∀ e ∈ i.simScores, (40 : ℚ) ≤ e.2) ∧
    (∀ i ∈ runPipelineBasic m pages, ∀ e ∈ i.simScores, (40 : ℚ) ≤ e.2) := by
  refine ⟨runIncremental_scores m pages, ?_, runPipelineBasic_scores m pages⟩
  rw [runPipeline]
  exact closeSpider_scores m _ (runIncremental_scores m pages)

unseal Rat.add Rat.mul Rat.inv Rat.sub in
theorem c8_witness :
    c8item ∈ runPipeline M0 [pageC, pageD] ∧
    ("https://s/c", (100 : ℚ)) ∈ c8item.simScores ∧
    (40 : ℚ) ≤ (("https://s/c", (100 : ℚ))).2 :=
  ⟨by decide, by decide, (c8_theorem M0 [pageC, pageD]).2.1 c8item (by decide)
    ("https://s/c", (100 : ℚ)) (by decide)⟩

/-! #### C10: the two normalizations and the exact-duplicate split -/

theorem dupExactStep_analyzer (ds : DupState) (i : Item) :
    (dupExactStep ds i).1.analyzer = ds.analyzer := by
  simp only [dupExactStep]
  split <;> rfl

theorem dupProcessItem_analyzer (m : HashModel) (ds : DupState) (i : Item) :
    (dupProcessItem m ds i).1.analyzer =
      processPage m ds.analyzer i.url i.textContent i.htmlContent := by
  calc (dupProcessItem m ds i).1.analyzer
      = processPage m (dupExactStep ds i).1.analyzer i.url i.textContent i.htmlContent := rfl
    _ = _ := by rw [dupExactStep_analyzer]

theorem pair_run_analyzer (m : HashModel) :
    (runIncremental m [pageC, pageD]).analyzer =
      processPage m (processPage m AnalyzerState.init "https://s/c" "quantum flux the" "")
        "https://s/d" "quantum flux" "" := by
  have ht1 : contentNormalizeText pageC.textContent = "quantum flux the" := by decide
  have ht2 : contentNormalizeText pageD.textContent = "quantum flux" := by decide
  rw [runIncremental, List.foldl_cons, List.foldl_cons, List.foldl_nil,
    pipelineStep, pipelineStep]
  rw [dupProcessItem_analyzer, dupProcessItem_analyzer]
  rw [(show (contentProcessItem m pageC).url = "https://s/c" from rfl),
    (show (contentProcessItem m pageD).url = "https://s/d" from rfl),
    (show (contentProcessItem m pageC).textContent =
      contentNormalizeText pageC.textContent from rfl),
    (show (contentProcessItem m pageD).textContent =
      contentNormalizeText pageD.textContent from rfl),
    ht1, ht2,
    (show (contentProcessItem m pageC).htmlContent = "" from rfl),
    (show (contentProcessItem m pageD).htmlContent = "" from rfl)]
  rfl

set_option maxHeartbeats 2000000 in
theorem pair_run_urlToNormalized (m : HashModel) :
    (runIncremental m [pageC, pageD]).analyzer.urlToNormalized =
      [("https://s/c", "quantum flux"), ("https://s/d", "quantum flux")] := by
  rw [pair_run_analyzer]
  rfl

set_option maxHeartbeats 2000000 in
theorem pair_run_urlToHash (m : HashModel) :
    (runIncremental m [pageC, pageD]).analyzer.urlToHash =
      [("https://s/c", m.sha256Hex "quantum flux"),
       ("https://s/d", m.sha256Hex "quantum flux")] := by
  rw [pair_run_analyzer]
  rfl

set_option maxHeartbeats 2000000 in
theorem pair_run_hashToUrls (m : HashModel) :
    (runIncremental m [pageC, pageD]).analyzer.hashToUrls =
      [(m.sha256Hex "quantum flux", ["https://s/c", "https://s/d"])] := by
  rw [pair_run_analyzer]
  have h1 : (processPage m (processPage m AnalyzerState.init "https://s/c" "quantum flux the" "")
      "https://s/d" "quantum flux" "").hashToUrls =
      assocAppend [(m.sha256Hex "quantum flux", ["https://s/c"])]
        (m.sha256Hex "quantum flux") "https://s/d" := rfl
  rw [h1]
  simp [assocAppend, List.find?]

theorem mem_insertDescBySim_of {x e : String × ℚ} {l : List (String × ℚ)}
    (h : e = x ∨ e ∈ l) : e ∈ insertDescBySim x l := by
  induction l with
  | nil =>
    simp only [insertDescBySim]
    rcases h with h | h
    · exact List.mem_singleton.mpr h
    · simp at h
  | cons y ys ih =>
    simp only [insertDescBySim]
    split
    · rcases h with h | h
      · exact List.mem_cons.mpr (Or.inr (ih (Or.inl h)))
      · rcases List.mem_cons.mp h with h2 | h2
        · exact List.mem_cons.mpr (Or.inl h2)
        · exact List.mem_cons.mpr (Or.inr (ih (Or.inr h2)))
    · rcases h with h | h
      · exact List.mem_cons.mpr (Or.inl h)
      · exact List.mem_cons.mpr (Or.inr h)

theorem mem_sortBySimDesc_of {e : String × ℚ} {l : List (String × ℚ)}
    (he : e ∈ l) : e ∈ sortBySimDesc l := by
  induction l with
  | nil => simpa using he
  | cons y ys ih =>
    simp only [sortBySimDesc]
    rcases List.mem_cons.mp he with h | h
    · exact mem_insertDescBySim_of (Or.inl h)
    · exact mem_insertDescBySim_of (Or.inr (ih h))

theorem fdCandidateStep_mem (m : HashModel) (st : AnalyzerState) (url1 text1 : String)
    (exact : List String) (acc : List (String × ℚ) × List (String × String)) (url2 : String)
    {e : String × ℚ} (he : e ∈ acc.1) :
    e ∈ (fdCandidateStep m st url1 text1 exact acc url2).1 := by
  simp only [fdCandidateStep]
  repeat' split
  all_goals first | exact he | exact List.mem_append.mpr (Or.inl he)

theorem fdUrlStep_exact_mem (m : HashModel) (st : AnalyzerState) (u other N : String)
    (acc : List (String × List (String × ℚ)) × List (String × String))
    (hN : N ≠ "")
    (hfind : assocFind st.urlToNormalized u = some N)
    (hexact : exactDuplicatesOf st u = [other]) :
    ∃ Y, fdUrlStep m st acc u = (assocSet acc.1 u Y, (fdUrlStep m st acc u).2) ∧
      (other, (1 : ℚ)) ∈ Y := by
  simp only [fdUrlStep, hfind, Option.getD_some, hexact]
  rw [if_neg hN]
  rcases hsig : assocFind st.urlToSignature u with _ | s1
  · simp only [hsig]
    refine ⟨_, rfl, ?_⟩
    exact mem_sortBySimDesc_of (by simp)
  · simp only [hsig]
    by_cases hs1 : s1 ≠ []
    · rw [if_pos hs1]
      refine ⟨_, rfl, ?_⟩
      exact mem_sortBySimDesc_of (foldl_preserves (fun a => (other, (1 : ℚ)) ∈ a.1) _ _
        (fun x a _ hx => fdCandidateStep_mem m st u _ _ x a hx) _ (by simp))
    · rw [if_neg hs1]
      refine ⟨_, rfl, ?_⟩
      exact mem_sortBySimDesc_of (by simp)

theorem findDuplicates_two_exact (m : HashModel) (st : AnalyzerState)
    (c d N H : String)
    (hcd : c ≠ d) (hN : N ≠ "") (hH : H ≠ "")
    (f1 : st.urlToNormalized = [(c, N), (d, N)])
    (f2 : st.urlToHash = [(c, H), (d, H)])
    (f3 : st.hashToUrls = [(H, [c, d])]) :
    ∃ X1 X2, findDuplicates m st = [(c, X1), (d, X2)] ∧
      (d, (1 : ℚ)) ∈ X1 ∧ (c, (1 : ℚ)) ∈ X2 := by
  have hfc : assocFind st.urlToNormalized c = some N := by simp [f1, assocFind, List.find?]
  have hfd2 : assocFind st.urlToNormalized d = some N := by
    simp [f1, assocFind, List.find?, hcd]
  have hhb : assocFind st.hashToUrls H = some [c, d] := by simp [f3, assocFind, List.find?]
  have hex1 : exactDuplicatesOf st c = [d] := by
    simp only [exactDuplicatesOf, f2,
      (show assocFind [(c, H), (d, H)] c = some H by simp [assocFind, List.find?]),
      hhb, Option.getD_some]
    rw [if_pos ⟨hH, by simp⟩]
    simp [Ne.symm hcd]
  have hex2 : exactDuplicatesOf st d = [c] := by
    simp only [exactDuplicatesOf, f2,
      (show assocFind [(c, H), (d, H)] d = some H by simp [assocFind, List.find?, hcd]),
      hhb, Option.getD_some]
    rw [if_pos ⟨hH, by simp⟩]
    simp [hcd]
  obtain ⟨Y1, hY1, hm1⟩ := fdUrlStep_exact_mem m st c d N ([], []) hN hfc hex1
  obtain ⟨Y2, hY2, hm2⟩ := fdUrlStep_exact_mem m st d c N
    (fdUrlStep m st ([], []) c) hN hfd2 hex2
  refine ⟨Y1, Y2, ?_, hm1, hm2⟩
  rw [findDuplicates, f1]
  simp only [List.map_cons, List.map_nil]
  rw [List.foldl_cons, List.foldl_cons, List.foldl_nil]
  rw [hY2, hY1]
  show assocSet (assocSet ([] : List (String × List (String × ℚ))) c Y1) d Y2 =
    [(c, Y1), (d, Y2)]
  simp [assocSet, List.find?, hcd]

set_option maxHeartbeats 2000000 in
/-- Claim C10: the exact-duplicate ground truth is split across two
normalizations.  For the concrete pair `pageC`/`pageD` (and any injective,
nonempty-digest hash model): the pipeline normalizations of the two texts
differ while the analyzer normalizations coincide; the analyzer therefore
assigns both pages the same internal hash; the final `find_duplicates` pass
records each page in the other\x27s match list at similarity 1.0; and yet
both emitted items carry distinct `contentHash`es, `isDuplicate = false`
and empty `duplicateUrls`. -/
theorem c10_theorem (m : HashModel)
    (hinj : Function.Injective m.sha256Hex)
    (hne : ∀ s, m.sha256Hex s ≠ "") :
    contentNormalizeText pageC.textContent ≠ contentNormalizeText pageD.textContent ∧
    analyzerNormalizeText true (contentNormalizeText pageC.textContent) =
      analyzerNormalizeText true (contentNormalizeText pageD.textContent) ∧
    (runIncremental m [pageC, pageD]).analyzer.urlToHash =
      [("https://s/c", m.sha256Hex "quantum flux"),
       ("https://s/d", m.sha256Hex "quantum flux")] ∧
    (∃ ms, assocFind (findDuplicates m (runIncremental m [pageC, pageD]).analyzer)
        "https://s/c" = some ms ∧ ("https://s/d", (1 : ℚ)) ∈ ms) ∧
    (∃ ms, assocFind (findDuplicates m (runIncremental m [pageC, pageD]).analyzer)
        "https://s/d" = some ms ∧ ("https://s/c", (1 : ℚ)) ∈ ms) ∧
    (runPipeline m [pageC, pageD]).map
        (fun i => (i.url, i.contentHash, i.isDuplicate, i.duplicateUrls)) =
      [("https://s/c", m.sha256Hex (contentNormalizeText pageC.textContent), false, []),
       ("https://s/d", m.sha256Hex (contentNormalizeText pageD.textContent), false, [])] := by
  have hTT : contentNormalizeText pageC.textContent ≠ contentNormalizeText pageD.textContent :=
    by decide
  have hH12 : m.sha256Hex (contentNormalizeText pageC.textContent) ≠
      m.sha256Hex (contentNormalizeText pageD.textContent) := fun h => hTT (hinj h)
  obtain ⟨X1, X2, hfdeq, hm1, hm2⟩ := findDuplicates_two_exact m
    (runIncremental m [pageC, pageD]).analyzer "https://s/c" "https://s/d"
    "quantum flux" (m.sha256Hex "quantum flux") (by decide) (by decide) (hne _)
    (pair_run_urlToNormalized m) (pair_run_urlToHash m) (pair_run_hashToUrls m)
  refine ⟨hTT, by decide, pair_run_urlToHash m,
    ⟨X1, by rw [hfdeq]; rfl, hm1⟩, ⟨X2, by rw [hfdeq]; rfl, hm2⟩, ?_⟩
  have hC : contentProcessItem m pageC =
      ⟨pageC.url, contentNormalizeText pageC.textContent, pageC.htmlContent,
        (splitWs (contentNormalizeText pageC.textContent)).length,
        m.sha256Hex (contentNormalizeText pageC.textContent), false, [], []⟩ := rfl
  have hD : contentProcessItem m pageD =
      ⟨pageD.url, contentNormalizeText pageD.textContent, pageD.htmlContent,
        (splitWs (contentNormalizeText pageD.textContent)).length,
        m.sha256Hex (contentNormalizeText pageD.textContent), false, [], []⟩ := rfl
  rw [runPipeline, closeSpider_fields, runIncremental, List.foldl_cons, List.foldl_cons,
    List.foldl_nil]
  rw [pipelineStep, pipelineStep]
  rw [(dupProcessItem_state m _ _).1, (dupProcessItem_state m _ _).1]
  rw [(show DupState.init.processedItems = [] from rfl)]
  simp only [List.nil_append, List.map_append]
  have hash1 : (dupExactStep DupState.init (contentProcessItem m pageC)).1.hashToUrls =
      [(m.sha256Hex (contentNormalizeText pageC.textContent), [pageC.url])] := by
    rw [dupExactStep_hashToUrls, hC]
    simp [assocAppend, hne _, DupState.init]
  have item1 : (dupExactStep DupState.init (contentProcessItem m pageC)).2.duplicateUrls = []
      ∧ (dupExactStep DupState.init (contentProcessItem m pageC)).2.isDuplicate = false := by
    obtain ⟨-, -, hd, hb⟩ := dupExactStep_item DupState.init (contentProcessItem m pageC)
    rw [hash1] at hd
    simp only [assocFind,
      (show (contentProcessItem m pageC).contentHash =
        m.sha256Hex (contentNormalizeText pageC.textContent) from rfl),
      (show (contentProcessItem m pageC).url = pageC.url from rfl)] at hd
    simp at hd
    exact ⟨hd, by simp [hb, hd]⟩
  have hstate1 : (dupProcessItem m DupState.init (contentProcessItem m pageC)).1.hashToUrls =
      [(m.sha256Hex (contentNormalizeText pageC.textContent), [pageC.url])] := by
    rw [(dupProcessItem_state m _ _).2, hash1]
  have hash2 : (dupExactStep (dupProcessItem m DupState.init (contentProcessItem m pageC)).1
      (contentProcessItem m pageD)).1.hashToUrls =
      [(m.sha256Hex (contentNormalizeText pageC.textContent), [pageC.url]),
       (m.sha256Hex (contentNormalizeText pageD.textContent), [pageD.url])] := by
    rw [dupExactStep_hashToUrls, hD]
    simp [assocAppend, hne _, hstate1, List.find?, hH12, Ne.symm hH12]
  have item2 : (dupExactStep (dupProcessItem m DupState.init (contentProcessItem m pageC)).1
        (contentProcessItem m pageD)).2.duplicateUrls = [] ∧
      (dupExactStep (dupProcessItem m DupState.init (contentProcessItem m pageC)).1
        (contentProcessItem m pageD)).2.isDuplicate = false := by
    obtain ⟨-, -, hd, hb⟩ := dupExactStep_item
      (dupProcessItem m DupState.init (contentProcessItem m pageC)).1 (contentProcessItem m pageD)
    have hch : (contentProcessItem m pageD).contentHash =
        m.sha256Hex (contentNormalizeText pageD.textContent) := rfl
    rw [hash2] at hd
    simp only [assocFind, hch,
      (show (contentProcessItem m pageD).url = pageD.url from rfl)] at hd
    simp [List.find?, hH12, Ne.symm hH12] at hd
    exact ⟨hd, by simp [hb, hd]⟩
  obtain ⟨hu1, hc1, hb1, hd1⟩ := dupProcessItem_item_fields m DupState.init
    (contentProcessItem m pageC)
  obtain ⟨hu2, hc2, hb2, hd2⟩ := dupProcessItem_item_fields m
    (dupProcessItem m DupState.init (contentProcessItem m pageC)).1 (contentProcessItem m pageD)
  simp only [List.map_cons, List.map_nil, hu1, hc1, hb1, hd1, hu2, hc2, hb2, hd2,
    item1.1, item1.2, item2.1, item2.2,
    (dupExactStep_item DupState.init (contentProcessItem m pageC)).1,
    (dupExactStep_item DupState.init (contentProcessItem m pageC)).2.1,
    (dupExactStep_item (dupProcessItem m DupState.init (contentProcessItem m pageC)).1
      (contentProcessItem m pageD)).1,
    (dupExactStep_item (dupProcessItem m DupState.init (contentProcessItem m pageC)).1
      (contentProcessItem m pageD)).2.1,
    (show (contentProcessItem m pageC).url = pageC.url from rfl),
    (show (contentProcessItem m pageD).url = pageD.url from rfl),
    (show (contentProcessItem m pageC).contentHash =
      m.sha256Hex (contentNormalizeText pageC.textContent) from rfl),
    (show (contentProcessItem m pageD).contentHash =
      m.sha256Hex (contentNormalizeText pageD.textContent) from rfl)]
  rfl

unseal Rat.add Rat.mul Rat.inv Rat.sub in
theorem c10_witness :
    contentNormalizeText pageC.textContent ≠ contentNormalizeText pageD.textContent ∧
    analyzerNormalizeText true (contentNormalizeText pageC.textContent) =
      analyzerNormalizeText true (contentNormalizeText pageD.textContent) ∧
    (runIncremental M0 [pageC, pageD]).analyzer.urlToHash =
      [("https://s/c", M0.sha256Hex "quantum flux"),
       ("https://s/d", M0.sha256Hex "quantum flux")] ∧
    (∃ ms, assocFind (findDuplicates M0 (runIncremental M0 [pageC, pageD]).analyzer)
        "https://s/c" = some ms ∧ ("https://s/d", (1 : ℚ)) ∈ ms) ∧
    (∃ ms, assocFind (findDuplicates M0 (runIncremental M0 [pageC, pageD]).analyzer)
        "https://s/d" = some ms ∧ ("https://s/c", (1 : ℚ)) ∈ ms) ∧
    (runPipeline M0 [pageC, pageD]).map
        (fun i => (i.url, i.contentHash, i.isDuplicate, i.duplicateUrls)) =
      [("https://s/c", M0.sha256Hex (contentNormalizeText pageC.textContent), false, []),
       ("https://s/d", M0.sha256Hex (contentNormalizeText pageD.textContent), false, [])] :=
  c10_theorem M0
    (fun a b h => by
      have h2 : ("#" ++ a).data = ("#" ++ b).data := congrArg String.data h
      rw [String.data_append, String.data_append] at h2
      have h3 : a.data = b.data := List.append_cancel_left h2
      obtain ⟨la⟩ := a
      obtain ⟨lb⟩ := b
      exact congrArg String.mk (show la = lb from h3))
    (fun s h => by
      have h2 := congrArg String.data h
      simp [M0, String.data_append] at h2)

/-! #### C1: similarity-recording symmetry -/

theorem mem_insertNew {l : List String} {x u : String} :
    u ∈ insertNew l x ↔ u ∈ l ∨ u = x := by
  rw [insertNew]
  split
  · rename_i hx
    constructor
    · exact Or.inl
    · rintro (h | rfl)
      · exact h
      · exact hx
  · simp [List.mem_append]

theorem nodup_insertNew {l : List String} (h : l.Nodup) (x : String) :
    (insertNew l x).Nodup := by
  rw [insertNew]
  split
  · exact h
  · rename_i hx
    simp [List.nodup_append, h, hx]

theorem mem_foldl_insertNew (l : List String) (acc : List String) (u : String) :
    u ∈ l.foldl insertNew acc ↔ u ∈ acc ∨ u ∈ l := by
  induction l generalizing acc with
  | nil => simp
  | cons x xs ih =>
    rw [List.foldl_cons, ih, mem_insertNew]
    simp only [List.mem_cons]
    tauto

theorem nodup_foldl_insertNew (l : List String) (acc : List String) (h : acc.Nodup) :
    (l.foldl insertNew acc).Nodup := by
  induction l generalizing acc with
  | nil => exact h
  | cons x xs ih => exact ih _ (nodup_insertNew h x)

theorem bucketGet_bucketAdd (b : Buckets) (k k2 : Nat × Int) (doc : String) :
    bucketGet (bucketAdd b k doc) k2 =
      if k2 = k then insertNew (bucketGet b k) doc else bucketGet b k2 := by
  rw [bucketAdd]
  split
  · rename_i hsome
    obtain ⟨e0, he0⟩ := Option.isSome_iff_exists.mp hsome
    have he0k : e0.1 = k := by simpa using List.find?_some he0
    have hpred : ((fun p => decide (p.1 = k2)) ∘
          fun e => if e.1 = k then (e.1, insertNew e.2 doc) else e) =
        (fun p : (Nat × Int) × List String => decide (p.1 = k2)) := by
      funext e
      simp only [Function.comp_apply]
      split <;> rfl
    have hmap : (b.map (fun e => if e.1 = k then (e.1, insertNew e.2 doc) else e)).find?
        (fun p => p.1 = k2) = (b.find? (fun p => p.1 = k2)).map
        (fun e => if e.1 = k then (e.1, insertNew e.2 doc) else e) := by
      rw [List.find?_map, hpred]
    by_cases hk : k2 = k
    · subst hk
      rw [if_pos rfl]
      rw [bucketGet, hmap, he0, bucketGet, he0]
      simp [he0k]
    · rw [if_neg hk]
      rw [bucketGet, hmap, bucketGet]
      rcases hf : b.find? (fun p => p.1 = k2) with _ | e1
      · rw [hf]
        rfl
      · have he1k : e1.1 = k2 := by simpa using List.find?_some hf
        have hne : ¬ e1.1 = k := by rw [he1k]; exact hk
        rw [hf]
        simp [Function.comp, hne]
  · rename_i hnone
    have hbn : b.find? (fun p => p.1 = k) = none := by
      rcases hf : b.find? (fun p => p.1 = k) with _ | e
      · exact hf
      · rw [hf] at hnone; simp at hnone
    by_cases hk : k2 = k
    · subst hk
      rw [if_pos rfl]
      rw [bucketGet, List.find?_append, hbn]
      rw [bucketGet, hbn]
      have : insertNew [] doc = [doc] := by simp [insertNew]
      simp [List.find?, this, insertNew]
    · rw [if_neg hk]
      rw [bucketGet, List.find?_append, bucketGet]
      rcases hf : b.find? (fun p => p.1 = k2) with _ | e1
      · simp [hf, List.find?, Ne.symm hk]
      · simp [hf]

theorem mem_foldl_bucketAdd (doc : String) (keys : List (Nat × Int)) (b0 : Buckets)
    (u : String) (k : Nat × Int) :
    u ∈ bucketGet (keys.foldl (fun bk kk => bucketAdd bk kk doc) b0) k ↔
      (u ∈ bucketGet b0 k ∨ (u = doc ∧ k ∈ keys)) := by
  induction keys generalizing b0 with
  | nil => simp
  | cons kk rest ih =>
    rw [List.foldl_cons, ih]
    rw [bucketGet_bucketAdd]
    by_cases hk : k = kk
    · subst hk
      rw [if_pos rfl, mem_insertNew]
      simp only [List.mem_cons]
      tauto
    · rw [if_neg hk]
      simp only [List.mem_cons]
      constructor
      · rintro (h | h)
        · exact Or.inl h
        · exact Or.inr ⟨h.1, Or.inr h.2⟩
      · rintro (h | ⟨hu, hkk | hkk⟩)
        · exact Or.inl h
        · exact absurd hkk.symm (Ne.symm hk)
        · exact Or.inr ⟨hu, hkk⟩

theorem mem_bucketGet_addDocument (m : HashModel) (cfg : LshConfig) (doc : String)
    (sig : List Nat) (b0 : Buckets) (u : String) (k : Nat × Int) :
    u ∈ bucketGet (addDocument m cfg doc sig b0) k ↔
      (u ∈ bucketGet b0 k ∨ (u = doc ∧
        k ∈ ((List.range cfg.numBands).takeWhile
          (fun i => i * cfg.rowsPerBand + cfg.rowsPerBand ≤ sig.length)).map
          (fun i => (i, m.tupleHash ((sig.drop (i * cfg.rowsPerBand)).take
            cfg.rowsPerBand))))) := by
  rw [addDocument, addBands_eq_takeWhile]
  rw [← List.foldl_map
    (fun i => ((i : Nat), m.tupleHash ((sig.drop (i * cfg.rowsPerBand)).take cfg.rowsPerBand)))
    (fun bk kk => bucketAdd bk kk doc)]
  exact mem_foldl_bucketAdd doc _ b0 u k

theorem mem_foldl_bucketUnion (key : Nat → Nat × Int) (b : Buckets) (bands : List Nat)
    (acc : List String) (u : String) :
    u ∈ bands.foldl (fun cs i => (bucketGet b (key i)).foldl insertNew cs) acc ↔
      u ∈ acc ∨ ∃ i ∈ bands, u ∈ bucketGet b (key i) := by
  induction bands generalizing acc with
  | nil => simp
  | cons x xs ih =>
    rw [List.foldl_cons, ih, mem_foldl_insertNew]
    simp only [List.mem_cons]
    constructor
    · rintro ((h | h) | ⟨i, hi, h⟩)
      · exact Or.inl h
      · exact Or.inr ⟨x, Or.inl rfl, h⟩
      · exact Or.inr ⟨i, Or.inr hi, h⟩
    · rintro (h | ⟨i, hi | hi, h⟩)
      · exact Or.inl (Or.inl h)
      · exact Or.inl (Or.inr (hi ▸ h))
      · exact Or.inr ⟨i, hi, h⟩

theorem mem_findCandidates (m : HashModel) (cfg : LshConfig) (doc : String)
    (sig : List Nat) (b : Buckets) (u : String) :
    u ∈ findCandidates m cfg doc sig b ↔
      (u ≠ doc ∧ ∃ i ∈ (List.range cfg.numBands).takeWhile
        (fun i => i * cfg.rowsPerBand + cfg.rowsPerBand ≤ sig.length),
        u ∈ bucketGet b (i, m.tupleHash ((sig.drop (i * cfg.rowsPerBand)).take
          cfg.rowsPerBand))) := by
  rw [findCandidates, collectBands_eq_takeWhile, List.mem_filter]
  rw [mem_foldl_bucketUnion (fun i => ((i : Nat), m.tupleHash ((sig.drop
    (i * cfg.rowsPerBand)).take cfg.rowsPerBand))) b]
  constructor
  · rintro ⟨h, hd⟩
    rcases h with h | h
    · simp at h
    · exact ⟨by simpa using hd, h⟩
  · rintro ⟨hd, h⟩
    exact ⟨Or.inr h, by simpa using hd⟩

theorem nodup_foldl_bucketUnion (key : Nat → Nat × Int) (b : Buckets) (bands : List Nat)
    (acc : List String) (h : acc.Nodup) :
    (bands.foldl (fun cs i => (bucketGet b (key i)).foldl insertNew cs) acc).Nodup := by
  induction bands generalizing acc with
  | nil => exact h
  | cons x xs ih => exact ih _ (nodup_foldl_insertNew _ _ h)

theorem findCandidates_nodup (m : HashModel) (cfg : LshConfig) (doc : String)
    (sig : List Nat) (b : Buckets) : (findCandidates m cfg doc sig b).Nodup := by
  rw [findCandidates, collectBands_eq_takeWhile]
  exact (nodup_foldl_bucketUnion _ b _ [] List.nodup_nil).filter _

theorem bucketGet_nil (k : Nat × Int) : bucketGet [] k = [] := rfl

theorem nodup_all_eq {l : List String} {a : String} (hnd : l.Nodup) (hall : ∀ x ∈ l, x = a) :
    l = [] ∨ l = [a] := by
  cases l with
  | nil => exact Or.inl rfl
  | cons x xs =>
    have hx : x = a := hall x (by simp)
    have hxs : xs = [] := by
      cases xs with
      | nil => rfl
      | cons y ys =>
        have hy : y = a := hall y (by simp)
        rw [hx, hy] at hnd
        simp at hnd
    rw [hx, hxs]
    exact Or.inr rfl

theorem findCandidates_single (m : HashModel) (cfg : LshConfig) (A : String)
    (sigA : List Nat) :
    findCandidates m cfg A sigA (addDocument m cfg A sigA []) = [] := by
  rw [List.eq_nil_iff_forall_not_mem]
  intro u hu
  rw [mem_findCandidates] at hu
  obtain ⟨hne, i, hi, hmem⟩ := hu
  rw [mem_bucketGet_addDocument] at hmem
  rcases hmem with h0 | hA
  · rw [bucketGet_nil] at h0
    simp at h0
  · exact hne hA.1

theorem findCandidates_two_cases (m : HashModel) (cfg : LshConfig) (A B : String)
    (sigA sigB sigX : List Nat) (X : String) (hXA : X = A ∨ X = B) :
    findCandidates m cfg X sigX (addDocument m cfg B sigB (addDocument m cfg A sigA [])) = []
    ∨ findCandidates m cfg X sigX
        (addDocument m cfg B sigB (addDocument m cfg A sigA [])) =
      [if X = A then B else A] := by
  apply nodup_all_eq (findCandidates_nodup m cfg X sigX _)
  intro u hu
  rw [mem_findCandidates] at hu
  obtain ⟨hne, i, hi, hmem⟩ := hu
  rw [mem_bucketGet_addDocument, mem_bucketGet_addDocument] at hmem
  rcases hmem with ((h0 | hA) | hB)
  · rw [bucketGet_nil] at h0
    simp at h0
  · rcases hXA with hX | hX
    · exact absurd (hA.1.trans hX.symm) hne
    · rw [if_neg (fun hc : X = A => hne (hA.1.trans hc.symm))]
      exact hA.1
  · rcases hXA with hX | hX
    · rw [if_pos hX]
      exact hB.1
    · exact absurd (hB.1.trans hX.symm) hne

theorem findCandidates_two_symm (m : HashModel) (cfg : LshConfig) (A B : String)
    (sigA sigB : List Nat) (hAB : A ≠ B) (hlen : sigA.length = sigB.length) :
    (B ∈ findCandidates m cfg A sigA
        (addDocument m cfg B sigB (addDocument m cfg A sigA [])) ↔
      A ∈ findCandidates m cfg B sigB
        (addDocument m cfg B sigB (addDocument m cfg A sigA []))) := by
  rw [mem_findCandidates, mem_findCandidates]
  constructor
  · rintro ⟨-, i, hi, hmem⟩
    rw [mem_bucketGet_addDocument, mem_bucketGet_addDocument] at hmem
    rcases hmem with ((h0 | hA) | hB)
    · rw [bucketGet_nil] at h0
      simp at h0
    · exact absurd hA.1.symm hAB
    · obtain ⟨j, hj, hkey⟩ := List.mem_map.mp hB.2
      have hij : j = i := congrArg Prod.fst hkey
      have hth : m.tupleHash ((sigB.drop (i * cfg.rowsPerBand)).take cfg.rowsPerBand) =
          m.tupleHash ((sigA.drop (i * cfg.rowsPerBand)).take cfg.rowsPerBand) := by
        have := congrArg Prod.snd hkey
        rw [hij] at this
        exact this
      refine ⟨hAB, i, hij ▸ hj, ?_⟩
      rw [mem_bucketGet_addDocument, mem_bucketGet_addDocument]
      refine Or.inl (Or.inr ⟨rfl, ?_⟩)
      rw [hth]
      exact List.mem_map.mpr ⟨i, hi, rfl⟩
  · rintro ⟨-, i, hi, hmem⟩
    rw [mem_bucketGet_addDocument, mem_bucketGet_addDocument] at hmem
    rcases hmem with ((h0 | hA) | hB)
    · rw [bucketGet_nil] at h0
      simp at h0
    · obtain ⟨j, hj, hkey⟩ := List.mem_map.mp hA.2
      have hij : j = i := congrArg Prod.fst hkey
      have hth : m.tupleHash ((sigA.drop (i * cfg.rowsPerBand)).take cfg.rowsPerBand) =
          m.tupleHash ((sigB.drop (i * cfg.rowsPerBand)).take cfg.rowsPerBand) := by
        have := congrArg Prod.snd hkey
        rw [hij] at this
        exact this
      refine ⟨hAB.symm, i, hij ▸ hj, ?_⟩
      rw [mem_bucketGet_addDocument, mem_bucketGet_addDocument]
      refine Or.inr ⟨rfl, ?_⟩
      rw [hth]
      exact List.mem_map.mpr ⟨i, hi, rfl⟩
    · exact absurd hB.1 hAB

theorem countP_zip_comm (s1 s2 : List Nat) :
    (s1.zip s2).countP (fun p => p.1 = p.2) = (s2.zip s1).countP (fun p => p.1 = p.2) := by
  rw [← List.zip_swap s1 s2, List.countP_map]
  apply List.countP_congr
  intro a ha
  simp only [Function.comp_apply, Prod.fst_swap, Prod.snd_swap, decide_eq_true_eq]
  exact eq_comm

theorem estimateJaccard_comm (s1 s2 : List Nat) :
    estimateJaccard s1 s2 = estimateJaccard s2 s1 := by
  rw [estimateJaccard, estimateJaccard]
  by_cases hlen : s1.length = s2.length
  · rw [hlen]
    rw [if_neg (show ¬(s2.length ≠ s2.length) by simp)]
    rw [if_neg (show ¬(s2.length ≠ s2.length) by simp)]
    rw [countP_zip_comm]
  · rw [if_pos (by simpa using hlen), if_pos (by simpa using (Ne.symm hlen))]

theorem filter_mem_length_comm {a b : List String} (ha : a.Nodup) (hb : b.Nodup) :
    (a.filter (· ∈ b)).length = (b.filter (· ∈ a)).length := by
  have h1 : (a.filter (· ∈ b)).length = (a.toFinset ∩ b.toFinset).card := by
    rw [← List.toFinset_card_of_nodup (ha.filter _), List.toFinset_filter]
    congr 1
    rw [← Finset.filter_mem_eq_inter]
    apply Finset.filter_congr
    intro x hx
    simp
  have h2 : (b.filter (· ∈ a)).length = (b.toFinset ∩ a.toFinset).card := by
    rw [← List.toFinset_card_of_nodup (hb.filter _), List.toFinset_filter]
    congr 1
    rw [← Finset.filter_mem_eq_inter]
    apply Finset.filter_congr
    intro x hx
    simp
  rw [h1, h2, Finset.inter_comm]

theorem union_length_comm {a b : List String} (ha : a.Nodup) (hb : b.Nodup) :
    (a ++ b.filter (· ∉ a)).length = (b ++ a.filter (· ∉ b)).length := by
  have key : ∀ (x y : List String), x.Nodup → y.Nodup →
      (x ++ y.filter (· ∉ x)).length = (x.toFinset ∪ y.toFinset).card := by
    intro x y hx hy
    rw [List.length_append]
    have h1 : (y.filter (· ∉ x)).length = (y.toFinset \ x.toFinset).card := by
      rw [← List.toFinset_card_of_nodup (hy.filter _), List.toFinset_filter]
      congr 1
      rw [Finset.sdiff_eq_filter]
      apply Finset.filter_congr
      intro z hz
      simp
    rw [h1, ← List.toFinset_card_of_nodup hx]
    rw [Finset.union_comm]
    rw [← Finset.card_sdiff_add_card]
    omega
  rw [key a b ha hb, key b a hb ha, Finset.union_comm]

theorem listJaccard_comm {a b : List String} (ha : a.Nodup) (hb : b.Nodup) :
    listJaccard a b = listJaccard b a := by
  rw [listJaccard, listJaccard]
  rw [filter_mem_length_comm ha hb, union_length_comm ha hb]

theorem createShingles_nodup (n : Nat) (t : String) : (createShingles n t).Nodup := by
  simp only [createShingles]
  split
  · exact List.nodup_nil
  · split
    · simp
    · exact List.nodup_dedup _

theorem calculateSimilarityFallback_comm (m : HashModel) (t1 t2 : String)
    (hrs : ∀ a b, m.ratcliffSim a b = m.ratcliffSim b a) :
    calculateSimilarityFallback m t1 t2 = calculateSimilarityFallback m t2 t1 := by
  rw [calculateSimilarityFallback, calculateSimilarityFallback]
  rw [listJaccard_comm (List.nodup_dedup _) (List.nodup_dedup _),
    listJaccard_comm (createShingles_nodup _ _) (createShingles_nodup _ _), hrs]

theorem calculateSimilarity_comm (m : HashModel) (st : AnalyzerState)
    (t1 t2 u1 u2 : String)
    (h1 : ((assocFind st.urlToShingles u1).getD []).Nodup)
    (h2 : ((assocFind st.urlToShingles u2).getD []).Nodup)
    (hrs : ∀ a b, m.ratcliffSim a b = m.ratcliffSim b a) :
    calculateSimilarity m st t1 t2 u1 u2 = calculateSimilarity m st t2 t1 u2 u1 := by
  simp only [calculateSimilarity]
  by_cases he1 : t1 = ""
  · simp [he1]
  · by_cases he2 : t2 = ""
    · simp [he2]
    · rw [if_neg (show ¬(t1 = "" ∨ t2 = "") from fun hc => hc.elim he1 he2),
        if_neg (show ¬(t2 = "" ∨ t1 = "") from fun hc => hc.elim he2 he1)]
      by_cases heq : t1 = t2
      · rw [if_pos heq, if_pos heq.symm]
      · rw [if_neg heq, if_neg (show ¬t2 = t1 from fun hc => heq hc.symm)]
        by_cases hu1 : u1 = ""
        · rw [if_neg (show ¬(u1 ≠ "" ∧ u2 ≠ "") from fun hc => hc.1 hu1),
            if_neg (show ¬(u2 ≠ "" ∧ u1 ≠ "") from fun hc => hc.2 hu1)]
          exact calculateSimilarityFallback_comm m t1 t2 hrs
        · by_cases hu2 : u2 = ""
          · rw [if_neg (show ¬(u1 ≠ "" ∧ u2 ≠ "") from fun hc => hc.2 hu2),
              if_neg (show ¬(u2 ≠ "" ∧ u1 ≠ "") from fun hc => hc.1 hu2)]
            exact calculateSimilarityFallback_comm m t1 t2 hrs
          · rw [if_pos (show u1 ≠ "" ∧ u2 ≠ "" from ⟨hu1, hu2⟩),
              if_pos (show u2 ≠ "" ∧ u1 ≠ "" from ⟨hu2, hu1⟩)]
            rcases hs1 : assocFind st.urlToSignature u1 with _ | s1 <;>
              rcases hs2 : assocFind st.urlToSignature u2 with _ | s2 <;>
              simp only [hs1, hs2]
            · exact calculateSimilarityFallback_comm m t1 t2 hrs
            · exact calculateSimilarityFallback_comm m t1 t2 hrs
            · exact calculateSimilarityFallback_comm m t1 t2 hrs
            · by_cases hn1 : s1 = []
              · rw [if_neg (show ¬(s1 ≠ [] ∧ s2 ≠ []) from fun hc => hc.1 hn1),
                  if_neg (show ¬(s2 ≠ [] ∧ s1 ≠ []) from fun hc => hc.2 hn1)]
                exact calculateSimilarityFallback_comm m t1 t2 hrs
              · by_cases hn2 : s2 = []
                · rw [if_neg (show ¬(s1 ≠ [] ∧ s2 ≠ []) from fun hc => hc.2 hn2),
                    if_neg (show ¬(s2 ≠ [] ∧ s1 ≠ []) from fun hc => hc.1 hn2)]
                  exact calculateSimilarityFallback_comm m t1 t2 hrs
                · rw [if_pos (show s1 ≠ [] ∧ s2 ≠ [] from ⟨hn1, hn2⟩),
                    if_pos (show s2 ≠ [] ∧ s1 ≠ [] from ⟨hn2, hn1⟩)]
                  by_cases hsh1 : (assocFind st.urlToShingles u1).getD [] = []
                  · rw [if_neg (show ¬((assocFind st.urlToShingles u1).getD [] ≠ [] ∧
                        (assocFind st.urlToShingles u2).getD [] ≠ []) from
                        fun hc => hc.1 hsh1),
                      if_neg (show ¬((assocFind st.urlToShingles u2).getD [] ≠ [] ∧
                        (assocFind st.urlToShingles u1).getD [] ≠ []) from
                        fun hc => hc.2 hsh1)]
                    exact calculateSimilarityFallback_comm m t1 t2 hrs
                  · by_cases hsh2 : (assocFind st.urlToShingles u2).getD [] = []
                    · rw [if_neg (show ¬((assocFind st.urlToShingles u1).getD [] ≠ [] ∧
                          (assocFind st.urlToShingles u2).getD [] ≠ []) from
                          fun hc => hc.2 hsh2),
                        if_neg (show ¬((assocFind st.urlToShingles u2).getD [] ≠ [] ∧
                          (assocFind st.urlToShingles u1).getD [] ≠ []) from
                          fun hc => hc.1 hsh2)]
                      exact calculateSimilarityFallback_comm m t1 t2 hrs
                    · rw [if_pos (show (assocFind st.urlToShingles u1).getD [] ≠ [] ∧
                          (assocFind st.urlToShingles u2).getD [] ≠ [] from ⟨hsh1, hsh2⟩),
                        if_pos (show (assocFind st.urlToShingles u2).getD [] ≠ [] ∧
                          (assocFind st.urlToShingles u1).getD [] ≠ [] from ⟨hsh2, hsh1⟩)]
                      rw [estimateJaccard_comm s1 s2, listJaccard_comm h1 h2]

theorem strLt_total {a b : List Char} (h : a ≠ b) :
    strLt a b = true ∨ strLt b a = true := by
  induction a generalizing b with
  | nil =>
    cases b with
    | nil => exact absurd rfl h
    | cons y ys => exact Or.inl rfl
  | cons x xs ih =>
    cases b with
    | nil => exact Or.inr rfl
    | cons y ys =>
      by_cases hxy : x < y
      · exact Or.inl (by simp [strLt, hxy])
      · by_cases hyx : y < x
        · exact Or.inr (by simp [strLt, hyx])
        · have hxyeq : x = y := le_antisymm (not_lt.mp hyx) (not_lt.mp hxy)
          have hts : xs ≠ ys := fun hc => h (by rw [hxyeq, hc])
          rcases ih hts with h2 | h2
          · exact Or.inl (by simp [strLt, hxy, hyx, hxyeq, h2])
          · exact Or.inr (by simp [strLt, hxy, hyx, ← hxyeq, h2])

theorem strLt_asymm {a b : List Char} (h : strLt a b = true) : strLt b a = false := by
  induction a generalizing b with
  | nil =>
    cases b with
    | nil => simp [strLt] at h
    | cons y ys => simp [strLt]
  | cons x xs ih =>
    cases b with
    | nil => simp [strLt] at h
    | cons y ys =>
      by_cases hxy : x < y
      · have hyx : ¬ y < x := fun hc => absurd (lt_trans hxy hc) (lt_irrefl x)
        rw [strLt]
        simp [hyx, hxy]
      · by_cases hyx : y < x
        · rw [strLt] at h
          simp [hxy, hyx] at h
        · rw [strLt] at h
          simp [hxy, hyx] at h
          rw [strLt]
          simp [hxy, hyx]
          exact ih h

theorem pairKey_comm {a b : String} (h : a ≠ b) : pairKey a b = pairKey b a := by
  have hd : a.data ≠ b.data := by
    intro hc
    apply h
    obtain ⟨la⟩ := a
    obtain ⟨lb⟩ := b
    exact congrArg String.mk (by simpa using hc)
  rw [pairKey, pairKey]
  by_cases h1 : strLt b.data a.data = true
  · rw [if_pos h1, if_neg (by rw [strLt_asymm h1]; simp)]
  · rcases strLt_total hd with h2 | h2
    · rw [if_neg h1, if_pos h2]
    · exact absurd h2 h1

end WebCrawler
